import Mathlib

/-!
# The HTTP handlers of the exporter (exporter/http.go)

A shallow embedding of `scrapeHandler`, `reloadPwdFile` and `basicAuth`, together with the parts
of the Go standard library they run through: `strings`, `net/url` (`Parse` and `URL.String`),
`crypto/sha256`, `crypto/subtle` and the response side of `net/http`. The collector constructor,
the password-file loader and the exposition handler live outside `http.go` and are parameters
(`Env`). A handler runs from start to end on its own: logging and the exporter mutex, which do
not change what a single request computes, are left out.
-/

namespace RedisExporter

/-- A Go string is an immutable sequence of bytes; a byte is a natural number below 256. A list
with an element of 256 or more stands for no Go string: the functions below are meant for
lists of bytes, and every input exhibited in this file is a list of bytes. -/
abbrev GoString := List Nat

/-- The bytes of an ASCII string literal of the source. -/
def str (s : String) : GoString := s.toList.map Char.toNat

namespace strings

/-- Go strings.HasPrefix. -/
def HasPrefix (s pre : GoString) : Bool := pre.isPrefixOf s

/-- Go strings.HasSuffix. -/
def HasSuffix (s suf : GoString) : Bool := suf.isSuffixOf s

/-- Go strings.Index: the position of the first occurrence of sep in s (none where Go
reports -1). -/
def Index (s sep : GoString) : Option Nat :=
  if sep.isPrefixOf s then some 0 else
  match s with
  | [] => none
  | _ :: t => (Index t sep).map (· + 1)

/-- Go strings.LastIndex: the position of the last occurrence of sep in s. -/
def LastIndex (s sep : GoString) : Option Nat :=
  match s with
  | [] => if sep.isPrefixOf [] then some 0 else none
  | c :: t =>
    match LastIndex t sep with
    | some i => some (i + 1)
    | none => if sep.isPrefixOf (c :: t) then some 0 else none

/-- Go strings.Contains. -/
def Contains (s substr : GoString) : Bool := (Index s substr).isSome

/-- Go strings.Cut: the text before and after the first occurrence of sep, and whether sep
occurs. -/
def Cut (s sep : GoString) : GoString × GoString × Bool :=
  match Index s sep with
  | some i => (s.take i, s.drop (i + sep.length), true)
  | none => (s, [], false)

/-- Go strings.Count for a one-byte substring. -/
def CountByte (s : GoString) (c : Nat) : Nat := s.count c

/-- Go strings.ToLower on ASCII text (the only text it is applied to here). -/
def ToLower (s : GoString) : GoString :=
  s.map (fun c => if 65 ≤ c ∧ c ≤ 90 then c + 32 else c)

end strings

namespace url

/-- The parts of a URL that Go net/url escapes differently. -/
inductive encoding
  | encodePath
  | encodePathSegment
  | encodeHost
  | encodeZone
  | encodeUserPassword
  | encodeQueryComponent
  | encodeFragment
  deriving DecidableEq, Repr

open encoding

/-- The failures of url.Parse. -/
inductive ParseError
  | invalidControlCharacter
  | emptyURL
  | missingProtocolScheme
  | invalidURIForRequest
  | firstPathSegmentColon
  | invalidUserinfo
  | missingBracket
  | invalidPort (colonPort : GoString)
  | EscapeError (s : GoString)
  | InvalidHostError (s : GoString)
  deriving DecidableEq, Repr

/-- Go url.Userinfo: the user name and the optional password of a URL. -/
structure Userinfo where
  username : GoString
  password : GoString
  passwordSet : Bool
  deriving DecidableEq, Repr

/-- Go url.URL: a parsed URL. -/
structure URL where
  Scheme : GoString := []
  Opaque : GoString := []
  User : Option Userinfo := none
  Host : GoString := []
  Path : GoString := []
  RawPath : GoString := []
  OmitHost : Bool := false
  ForceQuery : Bool := false
  RawQuery : GoString := []
  Fragment : GoString := []
  RawFragment : GoString := []
  deriving DecidableEq, Repr

/-- Go ishex: whether c is a hexadecimal digit. -/
def ishex (c : Nat) : Bool :=
  (48 ≤ c ∧ c ≤ 57) ∨ (97 ≤ c ∧ c ≤ 102) ∨ (65 ≤ c ∧ c ≤ 70)

/-- Go unhex: the value of the hexadecimal digit c. -/
def unhex (c : Nat) : Nat :=
  if 48 ≤ c ∧ c ≤ 57 then c - 48
  else if 97 ≤ c ∧ c ≤ 102 then c - 97 + 10
  else if 65 ≤ c ∧ c ≤ 70 then c - 65 + 10
  else 0

/-- Go shouldEscape: whether byte c must be percent-escaped in the given part of a URL. -/
def shouldEscape (c : Nat) (mode : encoding) : Bool :=
  -- unreserved characters (alphanum)
  if (97 ≤ c ∧ c ≤ 122) ∨ (65 ≤ c ∧ c ≤ 90) ∨ (48 ≤ c ∧ c ≤ 57) then false
  -- host: ! $ & ' ( ) * + , ; = : [ ] < > "
  else if (mode = encodeHost ∨ mode = encodeZone) ∧
      c ∈ [33, 36, 38, 39, 40, 41, 42, 43, 44, 59, 61, 58, 91, 93, 60, 62, 34] then false
  -- unreserved marks - _ . ~
  else if c ∈ [45, 95, 46, 126] then false
  -- reserved $ & + , / : ; = ? @
  else if c ∈ [36, 38, 43, 44, 47, 58, 59, 61, 63, 64] then
    match mode with
    | encodePath => c = 63
    | encodePathSegment => c = 47 ∨ c = 59 ∨ c = 44 ∨ c = 63
    | encodeUserPassword => c = 64 ∨ c = 47 ∨ c = 63 ∨ c = 58
    | encodeQueryComponent => true
    | encodeFragment => false
    | _ => true
  -- fragment: ! ( ) *
  else if mode = encodeFragment ∧ c ∈ [33, 40, 41, 42] then false
  else true

/-- Go stringContainsCTLByte: whether s contains an ASCII control character. -/
def stringContainsCTLByte (s : GoString) : Bool :=
  s.any (fun b => b < 32 ∨ b = 127)

/-- First pass of Go unescape: validates the percent-escapes of s and returns the number of
escapes and the hasPlus flag, or the error. -/
def unescapeScan (mode : encoding) : GoString → Nat → Bool → Except ParseError (Nat × Bool)
  | [], n, hasPlus => .ok (n, hasPlus)
  | c :: rest, n, hasPlus =>
    if c = 37 then
      match rest with
      | a :: b :: rest2 =>
        if !(ishex a) || !(ishex b) then .error (.EscapeError ((c :: rest).take 3))
        else if mode = encodeHost ∧ unhex a < 8 ∧ [c, a, b] ≠ str "%25" then
          .error (.EscapeError [c, a, b])
        else if mode = encodeZone ∧ [c, a, b] ≠ str "%25" ∧ ((unhex a <<< 4) ||| unhex b) ≠ 32 ∧
            shouldEscape ((unhex a <<< 4) ||| unhex b) encodeHost then
          .error (.EscapeError [c, a, b])
        else unescapeScan mode rest2 (n + 1) hasPlus
      | _ => .error (.EscapeError ((c :: rest).take 3))
    else if c = 43 then
      unescapeScan mode rest n (decide (mode = encodeQueryComponent))
    else if (mode = encodeHost ∨ mode = encodeZone) ∧ c < 128 ∧ shouldEscape c encodeHost then
      .error (.InvalidHostError [c])
    else unescapeScan mode rest n hasPlus

/-- Second pass of Go unescape: decodes the validated text. -/
def unescapeBuild (mode : encoding) : GoString → GoString
  | [] => []
  | c :: rest =>
    if c = 37 then
      match rest with
      | a :: b :: rest2 => ((unhex a <<< 4) ||| unhex b) :: unescapeBuild mode rest2
      | _ => []
    else if c = 43 then
      (if mode = encodeQueryComponent then 32 else 43) :: unescapeBuild mode rest
    else c :: unescapeBuild mode rest

/-- Go unescape: undoes percent-escaping of s, in the given part of a URL. -/
def unescape (s : GoString) (mode : encoding) : Except ParseError GoString :=
  match unescapeScan mode s 0 false with
  | .error e => .error e
  | .ok (n, hasPlus) => if n = 0 ∧ hasPlus = false then .ok s else .ok (unescapeBuild mode s)

/-- The digits Go escape writes. -/
def upperhex : GoString := str "0123456789ABCDEF"

/-- First pass of Go escape: the number of spaces to turn into plus signs and of bytes to
percent-escape. -/
def escapeCount (mode : encoding) : GoString → Nat × Nat
  | [] => (0, 0)
  | c :: rest =>
    let (spaceCount, hexCount) := escapeCount mode rest
    if shouldEscape c mode then
      if c = 32 ∧ mode = encodeQueryComponent then (spaceCount + 1, hexCount)
      else (spaceCount, hexCount + 1)
    else (spaceCount, hexCount)

/-- Second pass of Go escape. -/
def escapeBuild (mode : encoding) : GoString → GoString
  | [] => []
  | c :: rest =>
    if c = 32 ∧ mode = encodeQueryComponent then 43 :: escapeBuild mode rest
    else if shouldEscape c mode then
      37 :: upperhex.getD (c >>> 4) 0 :: upperhex.getD (c &&& 15) 0 :: escapeBuild mode rest
    else c :: escapeBuild mode rest

/-- Go escape: percent-escapes s for the given part of a URL. -/
def escape (s : GoString) (mode : encoding) : GoString :=
  if escapeCount mode s = (0, 0) then s else escapeBuild mode s

/-- The loop of Go getScheme from byte i on, the bytes from i on being the last argument. -/
def getSchemeFrom (rawURL : GoString) : Nat → GoString → Except ParseError (GoString × GoString)
  | _, [] => .ok ([], rawURL)
  | i, c :: rest =>
    if (97 ≤ c ∧ c ≤ 122) ∨ (65 ≤ c ∧ c ≤ 90) then getSchemeFrom rawURL (i + 1) rest
    else if (48 ≤ c ∧ c ≤ 57) ∨ c = 43 ∨ c = 45 ∨ c = 46 then
      if i = 0 then .ok ([], rawURL) else getSchemeFrom rawURL (i + 1) rest
    else if c = 58 then
      if i = 0 then .error .missingProtocolScheme else .ok (rawURL.take i, rawURL.drop (i + 1))
    else .ok ([], rawURL)

/-- Go getScheme: splits a leading scheme and its colon off rawURL; the scheme is empty when
rawURL has none. -/
def getScheme (rawURL : GoString) : Except ParseError (GoString × GoString) :=
  getSchemeFrom rawURL 0 rawURL

/-- Go validOptionalPort: port is empty or a colon followed by digits. -/
def validOptionalPort (port : GoString) : Bool :=
  match port with
  | [] => true
  | c :: rest => if c ≠ 58 then false else rest.all (fun b => !(b < 48 ∨ b > 57))

/-- Go validUserinfo. -/
def validUserinfo (s : GoString) : Bool :=
  s.all (fun r =>
    (65 ≤ r ∧ r ≤ 90) ∨ (97 ≤ r ∧ r ≤ 122) ∨ (48 ≤ r ∧ r ≤ 57) ∨
    -- - . _ : ~ ! $ & ' ( ) * + , ; = % @
    r ∈ [45, 46, 95, 58, 126, 33, 36, 38, 39, 40, 41, 42, 43, 44, 59, 61, 37, 64])

/-- Go parseHost: parses host as an authority without user information. This is parseHost as
it stood before the library began to check what stands between the brackets of an IP literal
and to refuse a second colon outside brackets; it accepts every host the later releases accept,
and some they refuse. -/
def parseHost (host : GoString) : Except ParseError GoString :=
  let plain : Except ParseError GoString := unescape host encodeHost
  if strings.HasPrefix host (str "[") then
    match strings.LastIndex host (str "]") with
    | none => .error .missingBracket
    | some i =>
      let colonPort := host.drop (i + 1)
      if !(validOptionalPort colonPort) then .error (.invalidPort colonPort)
      else
        match strings.Index (host.take i) (str "%25") with
        | some zone =>
          match unescape (host.take zone) encodeHost with
          | .error e => .error e
          | .ok host1 =>
            match unescape ((host.take i).drop zone) encodeZone with
            | .error e => .error e
            | .ok host2 =>
              match unescape (host.drop i) encodeHost with
              | .error e => .error e
              | .ok host3 => .ok (host1 ++ host2 ++ host3)
        | none => plain
  else
    match strings.LastIndex host (str ":") with
    | some i =>
      let colonPort := host.drop i
      if !(validOptionalPort colonPort) then .error (.invalidPort colonPort) else plain
    | none => plain

/-- Go parseAuthority: splits the authority into user information and host. -/
def parseAuthority (authority : GoString) : Except ParseError (Option Userinfo × GoString) :=
  let i := strings.LastIndex authority (str "@")
  let hostText := match i with
    | none => authority
    | some i => authority.drop (i + 1)
  match parseHost hostText with
  | .error e => .error e
  | .ok host =>
    match i with
    | none => .ok (none, host)
    | some i =>
      let userinfo := authority.take i
      if !(validUserinfo userinfo) then .error .invalidUserinfo
      else if !(strings.Contains userinfo (str ":")) then
        match unescape userinfo encodeUserPassword with
        | .error e => .error e
        | .ok userinfo => .ok (some ⟨userinfo, [], false⟩, host)
      else
        let (username, password, _) := strings.Cut userinfo (str ":")
        match unescape username encodeUserPassword with
        | .error e => .error e
        | .ok username =>
          match unescape password encodeUserPassword with
          | .error e => .error e
          | .ok password => .ok (some ⟨username, password, true⟩, host)

/-- Go URL.setPath: sets Path and RawPath from the encoded path p. -/
def setPath (u : URL) (p : GoString) : Except ParseError URL :=
  match unescape p encodePath with
  | .error e => .error e
  | .ok path =>
    if p = escape path encodePath then .ok { u with Path := path, RawPath := [] }
    else .ok { u with Path := path, RawPath := p }

/-- Go URL.setFragment: sets Fragment and RawFragment from the encoded fragment f. -/
def setFragment (u : URL) (f : GoString) : Except ParseError URL :=
  match unescape f encodeFragment with
  | .error e => .error e
  | .ok frag =>
    if f = escape frag encodeFragment then .ok { u with Fragment := frag, RawFragment := [] }
    else .ok { u with Fragment := frag, RawFragment := f }

/-- The query split of Go parse: a lone trailing question mark sets ForceQuery, otherwise the
text after the first question mark is the raw query. Returns ForceQuery, RawQuery and the text
before the query. -/
def splitQuery (rest : GoString) : Bool × GoString × GoString :=
  if strings.HasSuffix rest (str "?") && strings.CountByte rest 63 == 1 then
    (true, [], rest.take (rest.length - 1))
  else (false, (strings.Cut rest (str "?")).2.1, (strings.Cut rest (str "?")).1)

/-- The authority split of Go parse: the text between the leading two slashes and the next
slash, and the text from that slash on. -/
def splitAuthority (rest : GoString) : GoString × GoString :=
  let authority := rest.drop 2
  match strings.Index authority (str "/") with
  | some i => (authority.take i, authority.drop i)
  | none => (authority, [])

/-- The part of Go parse after the scheme and the query have been split off: url holds the
scheme and the query, rest is the text between them. -/
def parseHierarchy (url : URL) (rest : GoString) (viaRequest : Bool) : Except ParseError URL :=
  if !(strings.HasPrefix rest (str "/")) ∧ url.Scheme ≠ [] then
    -- rootless paths are opaque
    .ok { url with Opaque := rest }
  else if !(strings.HasPrefix rest (str "/")) ∧ viaRequest then
    .error .invalidURIForRequest
  else if !(strings.HasPrefix rest (str "/")) ∧
      strings.Contains (strings.Cut rest (str "/")).1 (str ":") then
    .error .firstPathSegmentColon
  else if (url.Scheme ≠ [] ∨ (!viaRequest ∧ !(strings.HasPrefix rest (str "///")))) ∧
      strings.HasPrefix rest (str "//") then
    match parseAuthority (splitAuthority rest).1 with
    | .error e => .error e
    | .ok (user, host) => setPath { url with User := user, Host := host } (splitAuthority rest).2
  else if url.Scheme ≠ [] ∧ strings.HasPrefix rest (str "/") then
    setPath { url with OmitHost := true } rest
  else setPath url rest

/-- Go parse: parses a URL without fragment. -/
def parse (rawURL : GoString) (viaRequest : Bool) : Except ParseError URL :=
  if stringContainsCTLByte rawURL then .error .invalidControlCharacter
  else if rawURL = [] ∧ viaRequest then .error .emptyURL
  else if rawURL = str "*" then .ok { Path := str "*" }
  else
    match getScheme rawURL with
    | .error e => .error e
    | .ok (scheme, rest) =>
      parseHierarchy
        { Scheme := strings.ToLower scheme, ForceQuery := (splitQuery rest).1,
          RawQuery := (splitQuery rest).2.1 }
        (splitQuery rest).2.2 viaRequest

/-- Go url.Parse: parses a raw URL into a URL structure. -/
def Parse (rawURL : GoString) : Except ParseError URL :=
  match parse (strings.Cut rawURL (str "#")).1 false with
  | .error e => .error e
  | .ok url =>
    if (strings.Cut rawURL (str "#")).2.1 = [] then .ok url
    else setFragment url (strings.Cut rawURL (str "#")).2.1

/-- Go validEncoded: whether s is a valid encoded path or fragment. -/
def validEncoded (s : GoString) (mode : encoding) : Bool :=
  s.all (fun c =>
    -- ! $ & ' ( ) * + , ; = : @ [ ] %
    if c ∈ [33, 36, 38, 39, 40, 41, 42, 43, 44, 59, 61, 58, 64, 91, 93, 37] then true
    else !(shouldEscape c mode))

/-- Go URL.EscapedPath. -/
def URL.EscapedPath (u : URL) : GoString :=
  let rawOk : Bool :=
    match unescape u.RawPath encodePath with
    | .ok p => p = u.Path
    | .error _ => false
  if u.RawPath ≠ [] ∧ validEncoded u.RawPath encodePath ∧ rawOk then u.RawPath
  else if u.Path = str "*" then str "*"
  else escape u.Path encodePath

/-- Go URL.EscapedFragment. -/
def URL.EscapedFragment (u : URL) : GoString :=
  let rawOk : Bool :=
    match unescape u.RawFragment encodeFragment with
    | .ok f => f = u.Fragment
    | .error _ => false
  if u.RawFragment ≠ [] ∧ validEncoded u.RawFragment encodeFragment ∧ rawOk then u.RawFragment
  else escape u.Fragment encodeFragment

/-- Go Userinfo.String. -/
def Userinfo.String (u : Userinfo) : GoString :=
  let s := escape u.username encodeUserPassword
  if u.passwordSet then s ++ str ":" ++ escape u.password encodeUserPassword else s

/-- The first step of Go URL.String: the scheme and its colon. -/
def URL.writeScheme (u : URL) : GoString :=
  if u.Scheme ≠ [] then u.Scheme ++ str ":" else []

/-- The authority step of Go URL.String: the two slashes, the user information and the host,
written after buf. -/
def URL.writeAuthority (u : URL) (buf : GoString) : GoString :=
  if u.Scheme ≠ [] ∨ u.Host ≠ [] ∨ u.User ≠ none then
    if u.OmitHost ∧ u.Host = [] ∧ u.User = none then buf
    else
      let buf := if u.Host ≠ [] ∨ u.Path ≠ [] ∨ u.User ≠ none then buf ++ str "//" else buf
      let buf := match u.User with
        | some ui => buf ++ ui.String ++ str "@"
        | none => buf
      if u.Host ≠ [] then buf ++ escape u.Host encodeHost else buf
  else buf

/-- The path step of Go URL.String: the escaped path written after buf, behind a slash when a
host precedes a rootless path, and behind ./ when nothing precedes a first segment with a
colon. -/
def URL.writePath (u : URL) (buf : GoString) : GoString :=
  let path := u.EscapedPath
  let buf := if path ≠ [] ∧ path.head? ≠ some 47 ∧ u.Host ≠ [] then buf ++ str "/" else buf
  let buf :=
    if buf.length = 0 ∧ strings.Contains (strings.Cut path (str "/")).1 (str ":") then
      buf ++ str "./"
    else buf
  buf ++ path

/-- The last steps of Go URL.String: the query and the fragment written after buf. -/
def URL.writeQueryFragment (u : URL) (buf : GoString) : GoString :=
  let buf := if u.ForceQuery ∨ u.RawQuery ≠ [] then buf ++ str "?" ++ u.RawQuery else buf
  if u.Fragment ≠ [] then buf ++ str "#" ++ u.EscapedFragment else buf

/-- Go URL.String: reassembles the URL into a string. -/
def URL.String (u : URL) : GoString :=
  let buf := u.writeScheme
  let buf := if u.Opaque ≠ [] then buf ++ u.Opaque else u.writePath (u.writeAuthority buf)
  u.writeQueryFragment buf

end url

namespace sha256

/-- Go bits.RotateLeft32(x, -n) on a 32-bit word. -/
def rotr (x n : Nat) : Nat := ((x >>> n) ||| (x <<< (32 - n))) % 2 ^ 32

/-- The round constants of SHA-256. -/
def _K : List Nat :=
  [0x428a2f98, 0x71374491, 0xb5c0fbcf, 0xe9b5dba5, 0x3956c25b, 0x59f111f1, 0x923f82a4, 0xab1c5ed5,
   0xd807aa98, 0x12835b01, 0x243185be, 0x550c7dc3, 0x72be5d74, 0x80deb1fe, 0x9bdc06a7, 0xc19bf174,
   0xe49b69c1, 0xefbe4786, 0x0fc19dc6, 0x240ca1cc, 0x2de92c6f, 0x4a7484aa, 0x5cb0a9dc, 0x76f988da,
   0x983e5152, 0xa831c66d, 0xb00327c8, 0xbf597fc7, 0xc6e00bf3, 0xd5a79147, 0x06ca6351, 0x14292967,
   0x27b70a85, 0x2e1b2138, 0x4d2c6dfc, 0x53380d13, 0x650a7354, 0x766a0abb, 0x81c2c92e, 0x92722c85,
   0xa2bfe8a1, 0xa81a664b, 0xc24b8b70, 0xc76c51a3, 0xd192e819, 0xd6990624, 0xf40e3585, 0x106aa070,
   0x19a4c116, 0x1e376c08, 0x2748774c, 0x34b0bcb5, 0x391c0cb3, 0x4ed8aa4a, 0x5b9cca4f, 0x682e6ff3,
   0x748f82ee, 0x78a5636f, 0x84c87814, 0x8cc70208, 0x90befffa, 0xa4506ceb, 0xbef9a3f7, 0xc67178f2]

/-- The eight 32-bit words of the running hash. -/
structure digest where
  h0 : Nat
  h1 : Nat
  h2 : Nat
  h3 : Nat
  h4 : Nat
  h5 : Nat
  h6 : Nat
  h7 : Nat
  deriving DecidableEq, Repr

/-- The initial hash value of SHA-256. -/
def init : digest :=
  ⟨0x6a09e667, 0xbb67ae85, 0x3c6ef372, 0xa54ff53a, 0x510e527f, 0x9b05688c, 0x1f83d9ab, 0x5be0cd19⟩

/-- The big-endian 32-bit words of a 64-byte chunk. -/
def words : Nat → GoString → List Nat
  | 0, _ => []
  | n + 1, p =>
    (p.getD 0 0 <<< 24 ||| p.getD 1 0 <<< 16 ||| p.getD 2 0 <<< 8 ||| p.getD 3 0) :: words n (p.drop 4)

/-- The message schedule: extends the words w by n further ones. -/
def schedule : Nat → List Nat → List Nat
  | 0, w => w
  | n + 1, w =>
    let i := w.length
    let v1 := w.getD (i - 2) 0
    let t1 := rotr v1 17 ^^^ rotr v1 19 ^^^ (v1 >>> 10)
    let v2 := w.getD (i - 15) 0
    let t2 := rotr v2 7 ^^^ rotr v2 18 ^^^ (v2 >>> 3)
    schedule n (w ++ [(t1 + w.getD (i - 7) 0 + t2 + w.getD (i - 16) 0) % 2 ^ 32])

/-- One round of the compression function, with round constant k and schedule word w. -/
def round (s : digest) (kw : Nat × Nat) : digest :=
  let t1 := (s.h7 + (rotr s.h4 6 ^^^ rotr s.h4 11 ^^^ rotr s.h4 25) +
    ((s.h4 &&& s.h5) ^^^ ((2 ^ 32 - 1 - s.h4) &&& s.h6)) + kw.1 + kw.2) % 2 ^ 32
  let t2 := ((rotr s.h0 2 ^^^ rotr s.h0 13 ^^^ rotr s.h0 22) +
    ((s.h0 &&& s.h1) ^^^ (s.h0 &&& s.h2) ^^^ (s.h1 &&& s.h2))) % 2 ^ 32
  ⟨(t1 + t2) % 2 ^ 32, s.h0, s.h1, s.h2, (s.h3 + t1) % 2 ^ 32, s.h4, s.h5, s.h6⟩

/-- The compression of one 64-byte chunk into the running hash. -/
def block (d : digest) (p : GoString) : digest :=
  let w := schedule 48 (words 16 p)
  let s := (_K.zip w).foldl round d
  ⟨(d.h0 + s.h0) % 2 ^ 32, (d.h1 + s.h1) % 2 ^ 32, (d.h2 + s.h2) % 2 ^ 32, (d.h3 + s.h3) % 2 ^ 32,
   (d.h4 + s.h4) % 2 ^ 32, (d.h5 + s.h5) % 2 ^ 32, (d.h6 + s.h6) % 2 ^ 32, (d.h7 + s.h7) % 2 ^ 32⟩

/-- Go blockGeneric: compresses the first n chunks of p. -/
def blockGeneric : Nat → digest → GoString → digest
  | 0, d, _ => d
  | n + 1, d, p => blockGeneric n (block d (p.take 64)) (p.drop 64)

/-- The padding appended to a message of len bytes: a one bit, zero bits up to 56 bytes modulo
64, and the length in bits as a big-endian 64-bit number. -/
def padding (len : Nat) : GoString :=
  let t := if len % 64 < 56 then 56 - len % 64 else 64 + 56 - len % 64
  let bits := (len <<< 3) % 2 ^ 64
  0x80 :: List.replicate (t - 1) 0 ++
    [bits >>> 56 % 256, bits >>> 48 % 256, bits >>> 40 % 256, bits >>> 32 % 256,
     bits >>> 24 % 256, bits >>> 16 % 256, bits >>> 8 % 256, bits % 256]

/-- The four bytes of a 32-bit word, big-endian. -/
def bigEndian (x : Nat) : GoString :=
  [x >>> 24 % 256, x >>> 16 % 256, x >>> 8 % 256, x % 256]

/-- Go sha256.Sum256: the 32-byte SHA-256 checksum of data. -/
def Sum256 (data : GoString) : GoString :=
  let p := data ++ padding data.length
  let d := blockGeneric (p.length / 64) init p
  bigEndian d.h0 ++ bigEndian d.h1 ++ bigEndian d.h2 ++ bigEndian d.h3 ++
    bigEndian d.h4 ++ bigEndian d.h5 ++ bigEndian d.h6 ++ bigEndian d.h7

end sha256

namespace subtle

/-- Go subtle.ConstantTimeByteEq: 1 if the bytes x and y are equal, 0 otherwise. -/
def ConstantTimeByteEq (x y : Nat) : Nat :=
  (((x ^^^ y) % 2 ^ 32 + 2 ^ 32 - 1) % 2 ^ 32) >>> 31

/-- Go subtle.ConstantTimeCompare: 1 if the byte slices x and y have equal contents, 0
otherwise. -/
def ConstantTimeCompare (x y : GoString) : Nat :=
  if x.length ≠ y.length then 0
  else
    let v := (x.zip y).foldl (fun v xy => (v ||| (xy.1 ^^^ xy.2)) % 256) 0
    ConstantTimeByteEq v 0

end subtle

namespace http

/-- The header map of a response: canonical header name to value. -/
abbrev Header := List (GoString × GoString)

/-- Go Header.Set: replaces the value held under key. -/
def Header.Set (h : Header) (key value : GoString) : Header :=
  (key, value) :: h.filter (fun kv => kv.1 ≠ key)

/-- Go Header.Get: the value held under key, the empty string when there is none. -/
def Header.Get (h : Header) (key : GoString) : GoString :=
  (h.lookup key).getD []

/-- The observable state of an http.ResponseWriter: the header map the handler may still edit,
the status line once written together with the headers sent with it, and the body so far. -/
structure ResponseWriter where
  header : Header := []
  status : Option Nat := none
  sent : Header := []
  body : GoString := []
  deriving DecidableEq, Repr

/-- Go ResponseWriter.WriteHeader: sends the status line and the current headers, once. -/
def ResponseWriter.WriteHeader (w : ResponseWriter) (statusCode : Nat) : ResponseWriter :=
  match w.status with
  | some _ => w
  | none => { w with status := some statusCode, sent := w.header }

/-- Go ResponseWriter.Write: writes body bytes, sending status 200 first when none was sent. -/
def ResponseWriter.Write (w : ResponseWriter) (b : GoString) : ResponseWriter :=
  let w := w.WriteHeader 200
  { w with body := w.body ++ b }

/-- Go http.StatusBadRequest. -/
def StatusBadRequest : Nat := 400

/-- Go http.StatusUnauthorized. -/
def StatusUnauthorized : Nat := 401

/-- Go http.StatusInternalServerError. -/
def StatusInternalServerError : Nat := 500

/-- Go http.Error: replies with the error message as plain text and the given status code. -/
def Error (w : ResponseWriter) (error : GoString) (code : Nat) : ResponseWriter :=
  let w := { w with header := w.header.Set (str "Content-Type") (str "text/plain; charset=utf-8") }
  let w := { w with header := w.header.Set (str "X-Content-Type-Options") (str "nosniff") }
  let w := w.WriteHeader code
  w.Write (error ++ str "\n")

/-- Go url.Values, the parsed query string: parameter name to its values in order. -/
abbrev Values := List (GoString × List GoString)

/-- Go Values.Get: the first value of key, the empty string when there is none. -/
def Values.Get (v : Values) (key : GoString) : GoString :=
  match v.lookup key with
  | some (x :: _) => x
  | _ => []

/-- The parts of an http.Request the handlers read: the parsed query of r.URL, and the
credentials r.BasicAuth() extracts from the Authorization header (none when ok is false). -/
structure Request where
  Query : Values := []
  BasicAuth : Option (GoString × GoString) := none
  deriving DecidableEq, Repr

end http

open http

/-- The identity of a prometheus.Registry allocated by prometheus.NewRegistry. -/
abbrev Registry := Nat

/-- The credential map loaded from the password file: alias to secret. -/
abbrev PasswordMap := List (GoString × GoString)

/-- Modelled from the spec: the single exporter credential held in Options.BasicAuth, declared
outside http.go. -/
structure BasicAuth where
  ExporterUser : GoString := []
  ExporterPwd : GoString := []
  deriving DecidableEq, Repr

/-- Modelled from the spec: the Options struct is declared outside http.go. It is a plain
configuration value (copied by assignment) with the fields http.go reads and writes; every
other field it may have is carried in Other. -/
structure Options (α : Type) where
  CheckKeys : GoString := []
  CheckSingleKeys : GoString := []
  CheckStreams : GoString := []
  CheckSingleStreams : GoString := []
  CountKeys : GoString := []
  MetricsPath : GoString := []
  Registry : Registry := 0
  RedisPwdFile : GoString := []
  PasswordMap : PasswordMap := []
  BasicAuth : BasicAuth := {}
  Other : α
  deriving DecidableEq, Repr

/-- The calls a handler makes to code outside http.go, in order, with their arguments. -/
inductive Call (α : Type)
  | urlParse (rawURL : GoString)
  | NewRegistry (registry : Registry)
  | NewRedisExporter (target : GoString) (opts : Options α)
  | HandlerFor (registry : Registry)
  | LoadPwdFile (path : GoString)
  | next
  deriving DecidableEq, Repr

/-- The code outside http.go the handlers call: the collector constructor (its error, none on
success), the credential-file loader, the exposition handler promhttp.HandlerFor builds for a
registry, and the text fmt.Sprintf produces for a target parse error. -/
structure Env (α : Type) where
  NewRedisExporter : GoString → Options α → Option GoString
  LoadPwdFile : GoString → Except GoString PasswordMap
  HandlerFor : Registry → ResponseWriter → Request → ResponseWriter
  SprintfParseErr : url.ParseError → GoString

/-- Modelled from the spec: the Exporter struct is declared outside http.go. It holds the shared
options by value and the error counter; with them goes the process state around a handler run:
the number of registries allocated so far (the next fresh registry identity) and the calls made
so far. -/
structure Exporter (α : Type) where
  options : Options α
  targetScrapeRequestErrors : Nat := 0
  registries : Nat := 0
  calls : List (Call α) := []
  deriving DecidableEq, Repr

variable {α : Type}

/-- Go Counter.Inc on e.targetScrapeRequestErrors. -/
def Exporter.IncTargetScrapeRequestErrors (e : Exporter α) : Exporter α :=
  { e with targetScrapeRequestErrors := e.targetScrapeRequestErrors + 1 }

/-- Records a call to code outside http.go. -/
def Exporter.record (e : Exporter α) (c : Call α) : Exporter α :=
  { e with calls := e.calls ++ [c] }

/-- Go prometheus.NewRegistry: allocates a registry distinct from every earlier one. -/
def Exporter.NewRegistry (e : Exporter α) : Registry × Exporter α :=
  (e.registries,
    { e with registries := e.registries + 1, calls := e.calls ++ [.NewRegistry e.registries] })

/-- An http.HandlerFunc, run against the exporter state. -/
abbrev HandlerFunc (α : Type) :=
  ResponseWriter → Request → Exporter α → ResponseWriter × Exporter α

/-- Lines 48 to 50 of scrapeHandler: a target without scheme separator gets the default scheme
in front. -/
def withDefaultScheme (target : GoString) : GoString :=
  if !(strings.Contains target (str "://")) then str "redis://" ++ target else target

/-- Lines 60 and 61 of scrapeHandler: the parsed URL is reassembled without its user
information. -/
def resolvedTarget (u : url.URL) : GoString :=
  url.URL.String { u with User := none }

/-- Lines 63 to 83 of scrapeHandler: the copy of the shared options, with the fields the
request overrides. -/
def requestOptions (options : Options α) (query : Values) : Options α :=
  let opts := options
  let ck := query.Get (str "check-keys")
  let opts := if ck ≠ [] then { opts with CheckKeys := ck } else opts
  let csk := query.Get (str "check-single-keys")
  let opts := if csk ≠ [] then { opts with CheckSingleKeys := csk } else opts
  let cs := query.Get (str "check-streams")
  let opts := if cs ≠ [] then { opts with CheckStreams := cs } else opts
  let css := query.Get (str "check-single-streams")
  let opts := if css ≠ [] then { opts with CheckSingleStreams := css } else opts
  let cntk := query.Get (str "count-keys")
  let opts := if cntk ≠ [] then { opts with CountKeys := cntk } else opts
  opts

/-- Model of Exporter.scrapeHandler: serves the metrics of the target named in the request from
a collector and a registry made for this request. -/
def scrapeHandler (env : Env α) : HandlerFunc α := fun w r e =>
  let target := r.Query.Get (str "target")
  if target = [] then
    let w := http.Error w (str "'target' parameter must be specified") StatusBadRequest
    (w, e.IncTargetScrapeRequestErrors)
  else
    let target := withDefaultScheme target
    let e := e.record (.urlParse target)
    match url.Parse target with
    | .error err =>
      let w := http.Error w (env.SprintfParseErr err) StatusBadRequest
      (w, e.IncTargetScrapeRequestErrors)
    | .ok u =>
      -- get rid of username/password info in "target"
      let target := resolvedTarget u
      let opts := requestOptions e.options r.Query
      let (registry, e) := e.NewRegistry
      let opts := { opts with Registry := registry }
      let e := e.record (.NewRedisExporter target opts)
      match env.NewRedisExporter target opts with
      | some _ =>
        let w := http.Error w (str "NewRedisExporter() err: err") StatusBadRequest
        (w, e.IncTargetScrapeRequestErrors)
      | none =>
        (env.HandlerFor registry w r, e.record (.HandlerFor registry))

/-- Model of Exporter.reloadPwdFile: loads the password file again and puts the loaded map in
place of the credential map. -/
def reloadPwdFile (env : Env α) : HandlerFunc α := fun w _ e =>
  if e.options.RedisPwdFile = [] then
    (http.Error w (str "There is no pwd file specified") StatusBadRequest, e)
  else
    let e := e.record (.LoadPwdFile e.options.RedisPwdFile)
    match env.LoadPwdFile e.options.RedisPwdFile with
    | .error err =>
      (http.Error w (str "failed to reload passwords file: " ++ err) StatusInternalServerError, e)
    | .ok passwordMap =>
      let e := { e with options := { e.options with PasswordMap := passwordMap } }
      (w.Write (str "ok"), e)


/-- Lines 141 and 142 of basicAuth: the challenge header and the 401 reply. -/
def unauthorized (w : ResponseWriter) : ResponseWriter :=
  let challenge := str "Basic realm=\"restricted\", charset=\"UTF-8\""
  let w := { w with header := w.header.Set (str "WWW-Authenticate") challenge }
  http.Error w (str "Unauthorized") StatusUnauthorized

/-- Model of Exporter.basicAuth: the basic auth handler around next, built from the exporter
e0 at the time the routes are set up. -/
def basicAuth (e0 : Exporter α) (next : HandlerFunc α) : HandlerFunc α :=
  let exporterUser := e0.options.BasicAuth.ExporterUser
  let exporterPwd := e0.options.BasicAuth.ExporterPwd
  fun w r e =>
    match r.BasicAuth with
    | some (username, password) =>
      let usernameHash := sha256.Sum256 username
      let passwordHash := sha256.Sum256 password
      let expectedUsernameHash := sha256.Sum256 exporterUser
      let expectedPasswordHash := sha256.Sum256 exporterPwd
      let usernameMatch := subtle.ConstantTimeCompare usernameHash expectedUsernameHash = 1
      let passwordMatch := subtle.ConstantTimeCompare passwordHash expectedPasswordHash = 1
      if usernameMatch ∧ passwordMatch then next w r (e.record .next)
      else (unauthorized w, e)
    | none => (unauthorized w, e)

/-! ## Concrete inputs -/

/-- A collaborator environment in which every target can be constructed, no password file can
be read, and the exposition handler writes an empty exposition. -/
def exampleEnv : Env Unit where
  NewRedisExporter := fun _ _ => none
  LoadPwdFile := fun _ => .error (str "open: no such file or directory")
  HandlerFor := fun _ w _ => w.Write []
  SprintfParseErr := fun _ => str "Invalid 'target' parameter"

/-- An exporter whose shared options hold a key pattern, the default registry 0 and the
exporter credentials admin and secret. -/
def exampleExporter : Exporter Unit where
  options :=
    { CheckKeys := str "db0=bar:*", MetricsPath := str "/metrics", Registry := 0,
      BasicAuth := { ExporterUser := str "admin", ExporterPwd := str "secret" }, Other := () }
  registries := 1

/-- The request GET /scrape without parameters. -/
def requestNoTarget : Request := {}

/-- The request GET /scrape?target=localhost:6379&check-keys=foo:* of the specification. -/
def requestCheckKeys : Request where
  Query := [(str "target", [str "localhost:6379"]), (str "check-keys", [str "foo:*"])]

/-- A request with the user name of the exporter and a wrong password. -/
def requestWrongPassword : Request where
  BasicAuth := some (str "admin", str "letmein")

/-- A wrapped handler that replies ok. -/
def okHandler : HandlerFunc Unit := fun w _ e => (w.Write (str "ok"), e)

/-- Whether a URI reference carries an explicit scheme: Go getScheme finds a non-empty scheme in
front of its first colon. -/
def hasScheme (s : GoString) : Bool :=
  match url.getScheme s with
  | .ok (scheme, _) => scheme ≠ []
  | .error _ => false

/-- The bytes a scheme may start with: the ASCII letters. -/
def schemeStart (c : Nat) : Prop := (97 ≤ c ∧ c ≤ 122) ∨ (65 ≤ c ∧ c ≤ 90)

/-- The bytes a scheme may contain: ASCII letters, digits, plus, minus and dot. -/
def schemeByte (c : Nat) : Prop :=
  schemeStart c ∨ (48 ≤ c ∧ c ≤ 57) ∨ c = 43 ∨ c = 45 ∨ c = 46

/-- A well-formed scheme name: a letter followed by scheme bytes. -/
def validScheme (scheme : GoString) : Prop :=
  (∃ c t, scheme = c :: t ∧ schemeStart c) ∧ ∀ c ∈ scheme, schemeByte c

/-- The text of s before the first byte c (all of s when c does not occur). -/
def before (c : Nat) : GoString → GoString
  | [] => []
  | x :: t => if x = c then [] else x :: before c t

/-- The request GET /scrape?target=/a://b: a target with the scheme separator and no scheme. -/
def requestSchemeless : Request where
  Query := [(str "target", [str "/a://b"])]

/-- The request GET /scrape?target=//u@//v@w/://: a target with user information, without
scheme and host, whose path starts with two slashes. -/
def requestPathAuthority : Request where
  Query := [(str "target", [str "//u@//v@w/://"])]

/-- The exporter whose configured credentials are the user admin and the password pwd. -/
def exporterWithPwd (pwd : GoString) : Exporter Unit where
  options := { BasicAuth := { ExporterUser := str "admin", ExporterPwd := pwd }, Other := () }

/-- The request that carries the basic-auth credentials admin and password. -/
def requestWithPassword (password : GoString) : Request where
  BasicAuth := some (str "admin", password)

/-- The request that carries the credentials configured in exampleExporter. -/
def requestRightPassword : Request where
  BasicAuth := some (str "admin", str "secret")


/-! ## Query parameters -/

theorem Values.Get_eq_nil_iff (v : Values) (key : GoString) :
    v.Get key = [] ↔ v.lookup key = none ∨ v.lookup key = some [] ∨
      ∃ vs, v.lookup key = some ([] :: vs) := by
  unfold Values.Get
  cases h : v.lookup key with
  | none => simp
  | some l =>
    cases l with
    | nil => simp
    | cons x xs => simp

/-! ## Responses -/

theorem Error_fresh (error : GoString) (code : Nat) :
    http.Error {} error code =
      { header := [(str "X-Content-Type-Options", str "nosniff"),
                   (str "Content-Type", str "text/plain; charset=utf-8")],
        status := some code,
        sent := [(str "X-Content-Type-Options", str "nosniff"),
                 (str "Content-Type", str "text/plain; charset=utf-8")],
        body := error ++ str "\n" } := by
  simp [http.Error, ResponseWriter.WriteHeader, ResponseWriter.Write, Header.Set]
  decide

/-- C1: a request to scrapeHandler whose target parameter is absent or empty is answered with
status 400 and the message that the target parameter must be specified; the
targetScrapeRequestErrors counter goes up by exactly one, and no call leaves the handler, so
neither NewRedisExporter nor the exposition handler is invoked. -/
theorem scrapeHandler_missing_target (env : Env α) (e : Exporter α) (r : Request)
    (h : r.Query.lookup (str "target") = none ∨ r.Query.lookup (str "target") = some [] ∨
      ∃ vs, r.Query.lookup (str "target") = some ([] :: vs)) :
    (scrapeHandler env {} r e).1.status = some 400 ∧
    (scrapeHandler env {} r e).1.body = str "'target' parameter must be specified" ++ str "\n" ∧
    (scrapeHandler env {} r e).2.targetScrapeRequestErrors = e.targetScrapeRequestErrors + 1 ∧
    (scrapeHandler env {} r e).2.calls = e.calls := by
  have hget : r.Query.Get (str "target") = [] := (Values.Get_eq_nil_iff _ _).2 h
  simp [scrapeHandler, hget, Error_fresh, Exporter.IncTargetScrapeRequestErrors, StatusBadRequest]

/-! ## Substrings -/

theorem strings.Index_isSome_iff (s sep : GoString) :
    (strings.Index s sep).isSome = true ↔ sep <:+: s := by
  induction s with
  | nil =>
    unfold strings.Index
    by_cases h : sep.isPrefixOf [] = true
    · rw [if_pos h]
      simpa using (List.isPrefixOf_iff_prefix.1 h).isInfix
    · rw [if_neg h]
      simp only [Option.isSome_none, Bool.false_eq_true, false_iff]
      intro hin
      have : sep = [] := List.eq_nil_of_infix_nil hin
      subst this
      simp at h
  | cons c t ih =>
    unfold strings.Index
    by_cases h : sep.isPrefixOf (c :: t) = true
    · rw [if_pos h]
      simpa using (List.isPrefixOf_iff_prefix.1 h).isInfix
    · rw [if_neg h, Option.isSome_map', ih, List.infix_cons_iff]
      constructor
      · exact fun hin => Or.inr hin
      · rintro (hp | hin)
        · exact absurd (List.isPrefixOf_iff_prefix.2 hp) h
        · exact hin

theorem strings.Contains_iff (s substr : GoString) :
    strings.Contains s substr = true ↔ substr <:+: s := by
  unfold strings.Contains
  exact strings.Index_isSome_iff s substr

/-! ## The scrape handler -/

theorem scrapeHandler_of_empty (env : Env α) (w : ResponseWriter) (r : Request) (e : Exporter α)
    (h : r.Query.Get (str "target") = []) :
    scrapeHandler env w r e =
      (http.Error w (str "'target' parameter must be specified") StatusBadRequest,
        e.IncTargetScrapeRequestErrors) := by
  simp [scrapeHandler, h]

theorem scrapeHandler_of_parse_error (env : Env α) (w : ResponseWriter) (r : Request)
    (e : Exporter α) (err : url.ParseError) (h : r.Query.Get (str "target") ≠ [])
    (hp : url.Parse (withDefaultScheme (r.Query.Get (str "target"))) = .error err) :
    scrapeHandler env w r e =
      (http.Error w (env.SprintfParseErr err) StatusBadRequest,
        (e.record (.urlParse (withDefaultScheme (r.Query.Get (str "target"))))).IncTargetScrapeRequestErrors) := by
  unfold scrapeHandler
  simp only [h, if_false, hp]

theorem scrapeHandler_of_parse_ok (env : Env α) (w : ResponseWriter) (r : Request)
    (e : Exporter α) (u : url.URL) (h : r.Query.Get (str "target") ≠ [])
    (hp : url.Parse (withDefaultScheme (r.Query.Get (str "target"))) = .ok u) :
    scrapeHandler env w r e =
      match env.NewRedisExporter (resolvedTarget u)
          { requestOptions e.options r.Query with Registry := e.registries } with
      | some _ =>
        (http.Error w (str "NewRedisExporter() err: err") StatusBadRequest,
          { e with
            targetScrapeRequestErrors := e.targetScrapeRequestErrors + 1,
            registries := e.registries + 1,
            calls := e.calls ++ [.urlParse (withDefaultScheme (r.Query.Get (str "target"))),
              .NewRegistry e.registries,
              .NewRedisExporter (resolvedTarget u)
                { requestOptions e.options r.Query with Registry := e.registries }] })
      | none =>
        (env.HandlerFor e.registries w r,
          { e with
            registries := e.registries + 1,
            calls := e.calls ++ [.urlParse (withDefaultScheme (r.Query.Get (str "target"))),
              .NewRegistry e.registries,
              .NewRedisExporter (resolvedTarget u)
                { requestOptions e.options r.Query with Registry := e.registries },
              .HandlerFor e.registries] }) := by
  unfold scrapeHandler
  simp only [h, if_false, hp, Exporter.NewRegistry, Exporter.record,
    Exporter.IncTargetScrapeRequestErrors]
  cases env.NewRedisExporter (resolvedTarget u)
      { requestOptions e.options r.Query with Registry := e.registries } <;>
    simp

theorem requestOptions_fields (options : Options α) (query : Values) :
    (requestOptions options query).CheckKeys =
      (if query.Get (str "check-keys") ≠ [] then query.Get (str "check-keys")
        else options.CheckKeys) ∧
    (requestOptions options query).CheckSingleKeys =
      (if query.Get (str "check-single-keys") ≠ [] then query.Get (str "check-single-keys")
        else options.CheckSingleKeys) ∧
    (requestOptions options query).CheckStreams =
      (if query.Get (str "check-streams") ≠ [] then query.Get (str "check-streams")
        else options.CheckStreams) ∧
    (requestOptions options query).CheckSingleStreams =
      (if query.Get (str "check-single-streams") ≠ [] then query.Get (str "check-single-streams")
        else options.CheckSingleStreams) ∧
    (requestOptions options query).CountKeys =
      (if query.Get (str "count-keys") ≠ [] then query.Get (str "count-keys")
        else options.CountKeys) ∧
    (requestOptions options query).MetricsPath = options.MetricsPath ∧
    (requestOptions options query).Registry = options.Registry ∧
    (requestOptions options query).RedisPwdFile = options.RedisPwdFile ∧
    (requestOptions options query).PasswordMap = options.PasswordMap ∧
    (requestOptions options query).BasicAuth = options.BasicAuth ∧
    (requestOptions options query).Other = options.Other := by
  unfold requestOptions
  by_cases h1 : query.Get (str "check-keys") = [] <;>
  by_cases h2 : query.Get (str "check-single-keys") = [] <;>
  by_cases h3 : query.Get (str "check-streams") = [] <;>
  by_cases h4 : query.Get (str "check-single-streams") = [] <;>
  by_cases h5 : query.Get (str "count-keys") = [] <;>
  simp [h1, h2, h3, h4, h5]

/-- C2: on a request with a non-empty target that parses, the options scrapeHandler passes to
NewRedisExporter carry, in each of the five overridable fields, the query parameter when it is
present and non-empty and the shared value otherwise; the registry is the newly allocated one,
and every other field is the one of the shared options. -/
theorem scrapeHandler_options_override (env : Env α) (w : ResponseWriter) (r : Request)
    (e : Exporter α) (u : url.URL) (hne : r.Query.Get (str "target") ≠ [])
    (hp : url.Parse (withDefaultScheme (r.Query.Get (str "target"))) = .ok u) :
    ∃ opts rest,
      (scrapeHandler env w r e).2.calls =
        e.calls ++ [.urlParse (withDefaultScheme (r.Query.Get (str "target"))),
          .NewRegistry e.registries, .NewRedisExporter (resolvedTarget u) opts] ++ rest ∧
      (rest = [] ∨ rest = [.HandlerFor e.registries]) ∧
      opts.CheckKeys = (if r.Query.Get (str "check-keys") ≠ [] then r.Query.Get (str "check-keys")
        else e.options.CheckKeys) ∧
      opts.CheckSingleKeys = (if r.Query.Get (str "check-single-keys") ≠ []
        then r.Query.Get (str "check-single-keys") else e.options.CheckSingleKeys) ∧
      opts.CheckStreams = (if r.Query.Get (str "check-streams") ≠ []
        then r.Query.Get (str "check-streams") else e.options.CheckStreams) ∧
      opts.CheckSingleStreams = (if r.Query.Get (str "check-single-streams") ≠ []
        then r.Query.Get (str "check-single-streams") else e.options.CheckSingleStreams) ∧
      opts.CountKeys = (if r.Query.Get (str "count-keys") ≠ [] then r.Query.Get (str "count-keys")
        else e.options.CountKeys) ∧
      opts.Registry = e.registries ∧
      opts.MetricsPath = e.options.MetricsPath ∧
      opts.RedisPwdFile = e.options.RedisPwdFile ∧
      opts.PasswordMap = e.options.PasswordMap ∧
      opts.BasicAuth = e.options.BasicAuth ∧
      opts.Other = e.options.Other := by
  obtain ⟨h1, h2, h3, h4, h5, h6, -, h8, h9, h10, h11⟩ := requestOptions_fields e.options r.Query
  rw [scrapeHandler_of_parse_ok env w r e u hne hp]
  cases env.NewRedisExporter (resolvedTarget u)
      { requestOptions e.options r.Query with Registry := e.registries } with
  | some err =>
    exact ⟨{ requestOptions e.options r.Query with Registry := e.registries }, [], by simp,
      Or.inl rfl, h1, h2, h3, h4, h5, rfl, h6, h8, h9, h10, h11⟩
  | none =>
    exact ⟨{ requestOptions e.options r.Query with Registry := e.registries },
      [.HandlerFor e.registries], by simp, Or.inr rfl, h1, h2, h3, h4, h5, rfl, h6, h8, h9, h10, h11⟩

theorem parse_localhost :
    url.Parse (withDefaultScheme (requestCheckKeys.Query.Get (str "target"))) =
      .ok { Scheme := str "redis", Host := str "localhost:6379" } := by
  rfl

/-- Witness of C2 on the scenario of the specification: check-keys=foo:* changes CheckKeys to
foo:* and leaves the other fields of the shared options alone. -/
theorem scrapeHandler_options_override_witness :
    ∃ opts rest,
      (scrapeHandler exampleEnv {} requestCheckKeys exampleExporter).2.calls =
        [.urlParse (str "redis://localhost:6379"), .NewRegistry 1,
          .NewRedisExporter (str "redis://localhost:6379") opts] ++ rest ∧
      opts.CheckKeys = str "foo:*" ∧ opts.CheckSingleKeys = [] ∧ opts.CheckStreams = [] ∧
      opts.CheckSingleStreams = [] ∧ opts.CountKeys = [] ∧ opts.Registry = 1 ∧
      opts.MetricsPath = str "/metrics" ∧ opts.BasicAuth = exampleExporter.options.BasicAuth := by
  obtain ⟨opts, rest, hcalls, -, h1, h2, h3, h4, h5, h6, h7, -, -, h10, -⟩ :=
    scrapeHandler_options_override exampleEnv {} requestCheckKeys exampleExporter _
      (by decide) parse_localhost
  exact ⟨opts, rest, hcalls, h1, h2, h3, h4, h5, h6, h7, h10⟩

/-- Witness of C1: the request without parameters. -/
theorem scrapeHandler_missing_target_witness :
    (scrapeHandler exampleEnv {} requestNoTarget exampleExporter).1.status = some 400 ∧
    (scrapeHandler exampleEnv {} requestNoTarget exampleExporter).1.body =
      str "'target' parameter must be specified" ++ str "\n" ∧
    (scrapeHandler exampleEnv {} requestNoTarget exampleExporter).2.targetScrapeRequestErrors =
      0 + 1 ∧
    (scrapeHandler exampleEnv {} requestNoTarget exampleExporter).2.calls = [] :=
  scrapeHandler_missing_target exampleEnv exampleExporter requestNoTarget (Or.inl rfl)

/-- C3: whatever the request and whichever path scrapeHandler takes (missing target, parse
failure, construction failure, success), the shared options of the exporter after the call are
the shared options before it. -/
theorem scrapeHandler_keeps_options (env : Env α) (w : ResponseWriter) (r : Request)
    (e : Exporter α) : (scrapeHandler env w r e).2.options = e.options := by
  by_cases hne : r.Query.Get (str "target") = []
  · rw [scrapeHandler_of_empty env w r e hne]
    rfl
  · cases hp : url.Parse (withDefaultScheme (r.Query.Get (str "target"))) with
    | error err =>
      rw [scrapeHandler_of_parse_error env w r e err hne hp]
      rfl
    | ok u =>
      rw [scrapeHandler_of_parse_ok env w r e u hne hp]
      cases env.NewRedisExporter (resolvedTarget u)
        { requestOptions e.options r.Query with Registry := e.registries } <;> rfl

/-- C5: for a non-empty target, the text scrapeHandler hands to url.Parse is redis:// followed
by the target when the target does not contain ://, and the target itself when it does. -/
theorem scrapeHandler_default_scheme (env : Env α) (w : ResponseWriter) (r : Request)
    (e : Exporter α) (hne : r.Query.Get (str "target") ≠ []) :
    (¬ str "://" <:+: r.Query.Get (str "target") →
      ∃ rest, (scrapeHandler env w r e).2.calls =
        e.calls ++ Call.urlParse (str "redis://" ++ r.Query.Get (str "target")) :: rest) ∧
    (str "://" <:+: r.Query.Get (str "target") →
      ∃ rest, (scrapeHandler env w r e).2.calls =
        e.calls ++ Call.urlParse (r.Query.Get (str "target")) :: rest) := by
  have hcalls : ∃ rest, (scrapeHandler env w r e).2.calls =
      e.calls ++ Call.urlParse (withDefaultScheme (r.Query.Get (str "target"))) :: rest := by
    cases hp : url.Parse (withDefaultScheme (r.Query.Get (str "target"))) with
    | error err =>
      rw [scrapeHandler_of_parse_error env w r e err hne hp]
      exact ⟨[], rfl⟩
    | ok u =>
      rw [scrapeHandler_of_parse_ok env w r e u hne hp]
      cases env.NewRedisExporter (resolvedTarget u)
        { requestOptions e.options r.Query with Registry := e.registries }
      · exact ⟨_, rfl⟩
      · exact ⟨_, rfl⟩
  constructor
  · intro hin
    have hc : strings.Contains (r.Query.Get (str "target")) (str "://") = false := by
      rw [← Bool.not_eq_true, strings.Contains_iff]
      exact hin
    simpa [withDefaultScheme, hc] using hcalls
  · intro hin
    have hc : strings.Contains (r.Query.Get (str "target")) (str "://") = true :=
      (strings.Contains_iff _ _).2 hin
    simpa [withDefaultScheme, hc] using hcalls

/-- Witness of C5: the target localhost:6379 is parsed as redis://localhost:6379. -/
theorem scrapeHandler_default_scheme_witness :
    ∃ rest, (scrapeHandler exampleEnv {} requestCheckKeys exampleExporter).2.calls =
      [] ++ Call.urlParse (str "redis://" ++ str "localhost:6379") :: rest :=
  (scrapeHandler_default_scheme exampleEnv {} requestCheckKeys exampleExporter
    (by decide)).1 (by decide)

/-- C10: on a request with a non-empty target that parses, scrapeHandler calls NewRedisExporter
exactly once, with the resolved target and the merged options. When that call fails, the reply
has status 400, the error counter goes up by exactly one and the exposition handler is not
invoked. When it succeeds, the counter is left alone and the exposition handler is invoked
exactly once, for the registry that was just allocated and attached to the options passed to
NewRedisExporter; that registry is not the shared default registry, which was allocated
earlier (hreg). -/
theorem scrapeHandler_constructs_once (env : Env α) (r : Request) (e : Exporter α) (u : url.URL)
    (hne : r.Query.Get (str "target") ≠ [])
    (hp : url.Parse (withDefaultScheme (r.Query.Get (str "target"))) = .ok u)
    (hreg : e.options.Registry < e.registries) :
    ∃ opts : Options α,
      opts = { requestOptions e.options r.Query with Registry := e.registries } ∧
      opts.Registry ≠ e.options.Registry ∧
      (∀ err, env.NewRedisExporter (resolvedTarget u) opts = some err →
        (scrapeHandler env {} r e).1.status = some 400 ∧
        (scrapeHandler env {} r e).2.targetScrapeRequestErrors =
          e.targetScrapeRequestErrors + 1 ∧
        (scrapeHandler env {} r e).2.calls =
          e.calls ++ [.urlParse (withDefaultScheme (r.Query.Get (str "target"))),
            .NewRegistry opts.Registry, .NewRedisExporter (resolvedTarget u) opts]) ∧
      (env.NewRedisExporter (resolvedTarget u) opts = none →
        (scrapeHandler env {} r e).1 = env.HandlerFor opts.Registry {} r ∧
        (scrapeHandler env {} r e).2.targetScrapeRequestErrors = e.targetScrapeRequestErrors ∧
        (scrapeHandler env {} r e).2.calls =
          e.calls ++ [.urlParse (withDefaultScheme (r.Query.Get (str "target"))),
            .NewRegistry opts.Registry, .NewRedisExporter (resolvedTarget u) opts,
            .HandlerFor opts.Registry]) := by
  refine ⟨_, rfl, ?_, ?_, ?_⟩
  · exact Nat.ne_of_gt hreg
  · intro err herr
    rw [scrapeHandler_of_parse_ok env {} r e u hne hp, herr]
    simp [Error_fresh, StatusBadRequest]
  · intro hok
    rw [scrapeHandler_of_parse_ok env {} r e u hne hp, hok]
    simp

/-- Witness of C10: the scrape of localhost:6379 constructs one collector and renders the
registry 1 allocated for the request, not the shared registry 0. -/
theorem scrapeHandler_constructs_once_witness :
    (scrapeHandler exampleEnv {} requestCheckKeys exampleExporter).2.calls =
      [.urlParse (str "redis://localhost:6379"), .NewRegistry 1,
        .NewRedisExporter (str "redis://localhost:6379")
          { exampleExporter.options with CheckKeys := str "foo:*", Registry := 1 },
        .HandlerFor 1] ∧
    (scrapeHandler exampleEnv {} requestCheckKeys exampleExporter).2.targetScrapeRequestErrors =
      0 := by
  obtain ⟨opts, hopts, -, -, hok⟩ :=
    scrapeHandler_constructs_once exampleEnv requestCheckKeys exampleExporter _
      (by decide) parse_localhost (by decide)
  obtain ⟨-, hcount, hcalls⟩ := hok rfl
  subst hopts
  exact ⟨hcalls, hcount⟩

/-! ## The password file reload -/

/-- C9: reloadPwdFile replaces the credential map only when loading succeeds. Without a
configured password file it replies 400, calls nothing and leaves the exporter as it was; when
LoadPwdFile fails it replies 500 and leaves the options, credential map included, as they were;
when LoadPwdFile succeeds it stores exactly the loaded map, changes no other option, and
replies ok. -/
theorem reloadPwdFile_replaces_on_success (env : Env α) (r : Request) (e : Exporter α) :
    (e.options.RedisPwdFile = [] →
      (reloadPwdFile env {} r e).1.status = some 400 ∧ (reloadPwdFile env {} r e).2 = e) ∧
    (∀ err, e.options.RedisPwdFile ≠ [] → env.LoadPwdFile e.options.RedisPwdFile = .error err →
      (reloadPwdFile env {} r e).1.status = some 500 ∧
      (reloadPwdFile env {} r e).2.options = e.options ∧
      (reloadPwdFile env {} r e).2.calls = e.calls ++ [.LoadPwdFile e.options.RedisPwdFile]) ∧
    (∀ passwordMap, e.options.RedisPwdFile ≠ [] →
      env.LoadPwdFile e.options.RedisPwdFile = .ok passwordMap →
      (reloadPwdFile env {} r e).1.status = some 200 ∧
      (reloadPwdFile env {} r e).1.body = str "ok" ∧
      (reloadPwdFile env {} r e).2.options = { e.options with PasswordMap := passwordMap } ∧
      (reloadPwdFile env {} r e).2.calls = e.calls ++ [.LoadPwdFile e.options.RedisPwdFile]) := by
  refine ⟨?_, ?_, ?_⟩
  · intro h
    simp [reloadPwdFile, h, Error_fresh, StatusBadRequest]
  · intro err h herr
    simp [reloadPwdFile, h, herr, Exporter.record, Error_fresh, StatusInternalServerError]
  · intro passwordMap h hok
    simp [reloadPwdFile, h, hok, Exporter.record, ResponseWriter.Write,
      ResponseWriter.WriteHeader]

/-! ## The basic auth handler -/

theorem Nat_or_eq_zero (a b : Nat) : a ||| b = 0 ↔ a = 0 ∧ b = 0 := by
  constructor
  · intro h
    have hbit : ∀ i, (a.testBit i || b.testBit i) = false := by
      intro i
      rw [← Nat.testBit_or, h, Nat.zero_testBit]
    constructor
    · apply Nat.eq_of_testBit_eq
      intro i
      have := hbit i
      rw [Bool.or_eq_false_iff] at this
      rw [this.1, Nat.zero_testBit]
    · apply Nat.eq_of_testBit_eq
      intro i
      have := hbit i
      rw [Bool.or_eq_false_iff] at this
      rw [this.2, Nat.zero_testBit]
  · rintro ⟨rfl, rfl⟩
    rfl

theorem subtle.fold_lt (l : List (Nat × Nat)) (a : Nat) (ha : a < 256) :
    l.foldl (fun v xy => (v ||| (xy.1 ^^^ xy.2)) % 256) a < 256 := by
  induction l generalizing a with
  | nil => simpa using ha
  | cons p l ih =>
    rw [List.foldl_cons]
    exact ih _ (Nat.mod_lt _ (by norm_num))

theorem subtle.fold_eq_zero (x y : GoString) (a : Nat) (ha : a < 256)
    (hlen : x.length = y.length) (hx : ∀ b ∈ x, b < 256) (hy : ∀ b ∈ y, b < 256) :
    (x.zip y).foldl (fun v xy => (v ||| (xy.1 ^^^ xy.2)) % 256) a = 0 ↔ a = 0 ∧ x = y := by
  induction x generalizing y a with
  | nil =>
    cases y with
    | nil => simp
    | cons c t => simp at hlen
  | cons b x ih =>
    cases y with
    | nil => simp at hlen
    | cons c y =>
      have hb : b < 256 := hx b (List.mem_cons_self _ _)
      have hc : c < 256 := hy c (List.mem_cons_self _ _)
      have hxor : b ^^^ c < 2 ^ 8 := Nat.xor_lt_two_pow (by omega) (by omega)
      have hor : a ||| (b ^^^ c) < 2 ^ 8 := Nat.or_lt_two_pow (by omega) hxor
      rw [List.zip_cons_cons, List.foldl_cons]
      simp only []
      rw [ih y _ (Nat.mod_lt _ (by norm_num)) (by simpa using hlen)
        (fun d hd => hx d (List.mem_cons_of_mem _ hd))
        (fun d hd => hy d (List.mem_cons_of_mem _ hd))]
      rw [Nat.mod_eq_of_lt (by omega), Nat_or_eq_zero, Nat.xor_eq_zero]
      constructor
      · rintro ⟨⟨h1, h2⟩, h3⟩
        exact ⟨h1, by rw [h2, h3]⟩
      · rintro ⟨h1, h2⟩
        injection h2 with h2 h3
        exact ⟨⟨h1, h2⟩, h3⟩

theorem subtle.ConstantTimeByteEq_zero (v : Nat) (hv : v < 256) :
    subtle.ConstantTimeByteEq v 0 = 1 ↔ v = 0 := by
  unfold subtle.ConstantTimeByteEq
  rw [Nat.xor_zero, Nat.shiftRight_eq_div_pow]
  constructor
  · intro h
    by_contra hne
    have h1 : (v % 2 ^ 32 + 2 ^ 32 - 1) % 2 ^ 32 = v - 1 := by omega
    rw [h1] at h
    have : (v - 1) / 2 ^ 31 = 0 := Nat.div_eq_of_lt (by omega)
    omega
  · rintro rfl
    norm_num

/-- On byte slices, subtle.ConstantTimeCompare returns 1 exactly when the contents are
equal. -/
theorem subtle.ConstantTimeCompare_eq_one (x y : GoString) (hx : ∀ b ∈ x, b < 256)
    (hy : ∀ b ∈ y, b < 256) : subtle.ConstantTimeCompare x y = 1 ↔ x = y := by
  unfold subtle.ConstantTimeCompare
  by_cases hlen : x.length = y.length
  · rw [if_neg (not_not.2 hlen)]
    simp only []
    rw [subtle.ConstantTimeByteEq_zero _ (subtle.fold_lt _ 0 (by norm_num)),
      subtle.fold_eq_zero x y 0 (by norm_num) hlen hx hy]
    simp
  · rw [if_pos hlen]
    constructor
    · intro h
      omega
    · rintro rfl
      exact absurd rfl hlen

theorem sha256.Sum256_length (data : GoString) : (sha256.Sum256 data).length = 32 := by
  simp [sha256.Sum256, sha256.bigEndian]

theorem sha256.Sum256_lt (data : GoString) : ∀ b ∈ sha256.Sum256 data, b < 256 := by
  intro b hb
  simp only [sha256.Sum256, sha256.bigEndian, List.cons_append, List.nil_append, List.mem_cons,
    List.mem_singleton, List.not_mem_nil, or_false] at hb
  rcases hb with h | h | h | h | h | h | h | h | h | h | h | h | h | h | h | h | h | h | h | h |
    h | h | h | h | h | h | h | h | h | h | h | h <;>
  · rw [h]
    exact Nat.mod_lt _ (by norm_num)

/-- The digest comparison of basicAuth succeeds exactly when the two digests are equal. -/
theorem subtle.ConstantTimeCompare_Sum256 (a b : GoString) :
    subtle.ConstantTimeCompare (sha256.Sum256 a) (sha256.Sum256 b) = 1 ↔
      sha256.Sum256 a = sha256.Sum256 b :=
  subtle.ConstantTimeCompare_eq_one _ _ (sha256.Sum256_lt a) (sha256.Sum256_lt b)

/-- Two digests that agree in each of their 32 bytes are equal. -/
theorem sha256.Sum256_eq_of_bytes_eq (a b : GoString)
    (h : ∀ i : Fin 32, (sha256.Sum256 a).getD i 0 = (sha256.Sum256 b).getD i 0) :
    sha256.Sum256 a = sha256.Sum256 b := by
  apply List.ext_getElem
  · rw [sha256.Sum256_length, sha256.Sum256_length]
  · intro i h1 h2
    have hi : i < 32 := by rw [sha256.Sum256_length] at h1; exact h1
    have := h ⟨i, hi⟩
    rw [List.getD_eq_getElem _ _ h1, List.getD_eq_getElem _ _ h2] at this
    exact this

/-- There are more texts of 55 lower-case letters (26 ^ 55) than SHA-256 digests (256 ^ 32), so
two different texts of 55 lower-case letters have the same digest. -/
theorem sha256.exists_collision :
    ∃ a b : GoString, a.length = 55 ∧ b.length = 55 ∧ (∀ c ∈ a, 97 ≤ c ∧ c ≤ 122) ∧
      (∀ c ∈ b, 97 ≤ c ∧ c ≤ 122) ∧ a ≠ b ∧ sha256.Sum256 a = sha256.Sum256 b := by
  have hword : ∀ g : Fin 55 → Fin 26, ∀ c ∈ List.ofFn (fun i => 97 + (g i).val),
      97 ≤ c ∧ c ≤ 122 := by
    intro g c hc
    rw [List.mem_ofFn] at hc
    obtain ⟨i, rfl⟩ := hc
    have := (g i).isLt
    simp only []
    omega
  have hcard : Fintype.card (Fin 32 → Fin 256) < Fintype.card (Fin 55 → Fin 26) := by
    rw [Fintype.card_fun, Fintype.card_fun, Fintype.card_fin, Fintype.card_fin, Fintype.card_fin,
      Fintype.card_fin]
    norm_num
  obtain ⟨g, g2, hne, hfg⟩ := Fintype.exists_ne_map_eq_of_card_lt
    (fun (g : Fin 55 → Fin 26) (i : Fin 32) =>
      (⟨(sha256.Sum256 (List.ofFn (fun i => 97 + (g i).val))).getD i 0 % 256,
        Nat.mod_lt _ (by norm_num)⟩ : Fin 256)) hcard
  refine ⟨List.ofFn (fun i => 97 + (g i).val), List.ofFn (fun i => 97 + (g2 i).val),
    by simp, by simp, hword g, hword g2, ?_, ?_⟩
  · intro heq
    apply hne
    funext i
    have := congrFun (List.ofFn_injective heq) i
    exact Fin.ext (by omega)
  · apply sha256.Sum256_eq_of_bytes_eq
    intro i
    have := congrArg (fun d => (d i).val) hfg
    simp only at this
    rw [Nat.mod_eq_of_lt, Nat.mod_eq_of_lt] at this
    · exact this
    · by_cases hi : (i : Nat) < (sha256.Sum256 (List.ofFn (fun i => 97 + (g2 i).val))).length
      · rw [List.getD_eq_getElem _ _ hi]
        exact sha256.Sum256_lt _ _ (List.getElem_mem _)
      · rw [List.getD_eq_default _ _ (Nat.le_of_not_lt hi)]
        norm_num
    · by_cases hi : (i : Nat) < (sha256.Sum256 (List.ofFn (fun i => 97 + (g i).val))).length
      · rw [List.getD_eq_getElem _ _ hi]
        exact sha256.Sum256_lt _ _ (List.getElem_mem _)
      · rw [List.getD_eq_default _ _ (Nat.le_of_not_lt hi)]
        norm_num

theorem basicAuth_of_match (e0 : Exporter α) (next : HandlerFunc α) (w : ResponseWriter)
    (r : Request) (e : Exporter α) (username password : GoString)
    (hr : r.BasicAuth = some (username, password))
    (hu : sha256.Sum256 username = sha256.Sum256 e0.options.BasicAuth.ExporterUser)
    (hpw : sha256.Sum256 password = sha256.Sum256 e0.options.BasicAuth.ExporterPwd) :
    basicAuth e0 next w r e = next w r (e.record .next) := by
  unfold basicAuth
  simp only [hr, subtle.ConstantTimeCompare_Sum256, hu, hpw, and_self, if_true]

theorem basicAuth_of_mismatch (e0 : Exporter α) (next : HandlerFunc α) (w : ResponseWriter)
    (r : Request) (e : Exporter α)
    (h : r.BasicAuth = none ∨ ∃ username password, r.BasicAuth = some (username, password) ∧
      (sha256.Sum256 username ≠ sha256.Sum256 e0.options.BasicAuth.ExporterUser ∨
        sha256.Sum256 password ≠ sha256.Sum256 e0.options.BasicAuth.ExporterPwd)) :
    basicAuth e0 next w r e = (unauthorized w, e) := by
  unfold basicAuth
  rcases h with hr | ⟨username, password, hr, hne⟩
  · simp only [hr]
  · simp only [hr, subtle.ConstantTimeCompare_Sum256]
    rw [if_neg]
    rintro ⟨h1, h2⟩
    rcases hne with hne | hne
    · exact hne h1
    · exact hne h2

theorem unauthorized_fresh :
    (unauthorized {}).status = some 401 ∧
    (unauthorized {}).sent.Get (str "WWW-Authenticate") =
      str "Basic realm=\"restricted\", charset=\"UTF-8\"" ∧
    (unauthorized {}).body = str "Unauthorized" ++ str "\n" := by
  decide

/-- C8: in every run of the handler built by basicAuth (whatever the wrapped handler, the
response writer and the state earlier requests left behind), the request is handed to the
wrapped handler, once and on the untouched response writer, when it carries credentials whose
user name and password have the SHA-256 digests of the configured ExporterUser and ExporterPwd;
in every other case the run ends in the 401 reply and leaves the state as it was, the wrapped
handler not being called. So a request with exactly the configured pair is granted, and two runs
with the same configured pair and the same credentials are both granted or both refused,
whatever their states. -/
theorem basicAuth_grants_iff (e0 : Exporter α) (next : HandlerFunc α) (w : ResponseWriter)
    (r : Request) (e : Exporter α) :
    ((∃ username password, r.BasicAuth = some (username, password) ∧
        sha256.Sum256 username = sha256.Sum256 e0.options.BasicAuth.ExporterUser ∧
        sha256.Sum256 password = sha256.Sum256 e0.options.BasicAuth.ExporterPwd) →
      basicAuth e0 next w r e = next w r (e.record .next)) ∧
    (¬ (∃ username password, r.BasicAuth = some (username, password) ∧
        sha256.Sum256 username = sha256.Sum256 e0.options.BasicAuth.ExporterUser ∧
        sha256.Sum256 password = sha256.Sum256 e0.options.BasicAuth.ExporterPwd) →
      basicAuth e0 next w r e = (unauthorized w, e)) ∧
    (r.BasicAuth = some (e0.options.BasicAuth.ExporterUser, e0.options.BasicAuth.ExporterPwd) →
      basicAuth e0 next w r e = next w r (e.record .next)) ∧
    (∀ (e1 e2 : Exporter α) (r1 : Request), e1.options.BasicAuth = e0.options.BasicAuth →
      r1.BasicAuth = r.BasicAuth →
      (basicAuth e0 next w r e = next w r (e.record .next) ∧
        basicAuth e1 next w r1 e2 = next w r1 (e2.record .next)) ∨
      (basicAuth e0 next w r e = (unauthorized w, e) ∧
        basicAuth e1 next w r1 e2 = (unauthorized w, e2))) := by
  have hyes : ∀ (e3 e4 : Exporter α) (r3 : Request),
      (∃ username password, r3.BasicAuth = some (username, password) ∧
        sha256.Sum256 username = sha256.Sum256 e3.options.BasicAuth.ExporterUser ∧
        sha256.Sum256 password = sha256.Sum256 e3.options.BasicAuth.ExporterPwd) →
      basicAuth e3 next w r3 e4 = next w r3 (e4.record .next) := by
    rintro e3 e4 r3 ⟨username, password, hr, hu, hpw⟩
    exact basicAuth_of_match e3 next w r3 e4 username password hr hu hpw
  have hno : ∀ (e3 e4 : Exporter α) (r3 : Request),
      ¬ (∃ username password, r3.BasicAuth = some (username, password) ∧
        sha256.Sum256 username = sha256.Sum256 e3.options.BasicAuth.ExporterUser ∧
        sha256.Sum256 password = sha256.Sum256 e3.options.BasicAuth.ExporterPwd) →
      basicAuth e3 next w r3 e4 = (unauthorized w, e4) := by
    intro e3 e4 r3 hnot
    apply basicAuth_of_mismatch
    cases hr : r3.BasicAuth with
    | none => exact Or.inl rfl
    | some up =>
      obtain ⟨username, password⟩ := up
      refine Or.inr ⟨username, password, rfl, ?_⟩
      by_contra hboth
      rw [not_or, not_not, not_not] at hboth
      exact hnot ⟨username, password, hr, hboth.1, hboth.2⟩
  refine ⟨hyes e0 e r, hno e0 e r, ?_, ?_⟩
  · intro hr
    exact hyes e0 e r ⟨_, _, hr, rfl, rfl⟩
  · intro e1 e2 r1 hcfg hreq
    by_cases hc : ∃ username password, r.BasicAuth = some (username, password) ∧
        sha256.Sum256 username = sha256.Sum256 e0.options.BasicAuth.ExporterUser ∧
        sha256.Sum256 password = sha256.Sum256 e0.options.BasicAuth.ExporterPwd
    · exact Or.inl ⟨hyes e0 e r hc, hyes e1 e2 r1 (by rw [hcfg, hreq]; exact hc)⟩
    · exact Or.inr ⟨hno e0 e r hc, hno e1 e2 r1 (by rw [hcfg, hreq]; exact hc)⟩

/-- Witness of C8: the request with the configured credentials admin and secret reaches the
wrapped handler, which replies ok; the call is recorded once. -/
theorem basicAuth_grants_witness :
    basicAuth exampleExporter okHandler {} requestRightPassword exampleExporter =
      (({} : ResponseWriter).Write (str "ok"), exampleExporter.record .next) :=
  (basicAuth_grants_iff exampleExporter okHandler {} requestRightPassword exampleExporter).2.2.1
    rfl

/-- Counterexample to C7 as stated: there are a configured password and a different request
password, both of 55 lower-case letters, such that the request with the configured user name
and the different password is not turned away: in every state it reaches the wrapped handler,
which replies with status 200. The handler compares SHA-256 digests, and among the texts of 55
lower-case letters two different ones share a digest. -/
theorem basicAuth_unequal_pair_granted :
    ∃ pwd password : GoString,
      pwd.length = 55 ∧ password.length = 55 ∧
      (∀ c ∈ pwd, 97 ≤ c ∧ c ≤ 122) ∧ (∀ c ∈ password, 97 ≤ c ∧ c ≤ 122) ∧
      (str "admin", password) ≠
        ((exporterWithPwd pwd).options.BasicAuth.ExporterUser,
          (exporterWithPwd pwd).options.BasicAuth.ExporterPwd) ∧
      ∀ e : Exporter Unit,
        (basicAuth (exporterWithPwd pwd) okHandler {} (requestWithPassword password) e).1.status =
          some 200 ∧
        (basicAuth (exporterWithPwd pwd) okHandler {} (requestWithPassword password) e).2.calls =
          e.calls ++ [Call.next] := by
  obtain ⟨a, b, ha, hb, hal, hbl, hne, hab⟩ := sha256.exists_collision
  refine ⟨a, b, ha, hb, hal, hbl, ?_, ?_⟩
  · intro heq
    injection heq with h1 h2
    exact hne h2.symm
  · intro e
    have hm := basicAuth_of_match (exporterWithPwd a) okHandler {} (requestWithPassword b) e
      (str "admin") b rfl (congrArg sha256.Sum256 rfl) hab.symm
    rw [hm]
    exact ⟨rfl, rfl⟩

/-- C7, amended: a request without basic-auth credentials, or with credentials whose user name
or password has a SHA-256 digest other than that of the configured ExporterUser or ExporterPwd,
does not reach the wrapped handler (the state is left as it was, no call is recorded); the reply
has status 401 and the WWW-Authenticate header of the restricted realm. -/
theorem basicAuth_denies (e0 : Exporter α) (next : HandlerFunc α) (r : Request) (e : Exporter α)
    (h : r.BasicAuth = none ∨ ∃ username password, r.BasicAuth = some (username, password) ∧
      (sha256.Sum256 username ≠ sha256.Sum256 e0.options.BasicAuth.ExporterUser ∨
        sha256.Sum256 password ≠ sha256.Sum256 e0.options.BasicAuth.ExporterPwd)) :
    (basicAuth e0 next {} r e).2 = e ∧
    (basicAuth e0 next {} r e).1.status = some 401 ∧
    (basicAuth e0 next {} r e).1.sent.Get (str "WWW-Authenticate") =
      str "Basic realm=\"restricted\", charset=\"UTF-8\"" := by
  rw [basicAuth_of_mismatch e0 next {} r e h]
  exact ⟨rfl, unauthorized_fresh.1, unauthorized_fresh.2.1⟩

/-- Witness of C7: the user name of the exporter with a wrong password is turned away with
status 401 and the challenge header. -/
theorem basicAuth_denies_witness :
    (basicAuth exampleExporter okHandler {} requestWrongPassword exampleExporter).2 =
      exampleExporter ∧
    (basicAuth exampleExporter okHandler {} requestWrongPassword exampleExporter).1.status =
      some 401 ∧
    (basicAuth exampleExporter okHandler {} requestWrongPassword
        exampleExporter).1.sent.Get (str "WWW-Authenticate") =
      str "Basic realm=\"restricted\", charset=\"UTF-8\"" :=
  basicAuth_denies exampleExporter okHandler requestWrongPassword exampleExporter
    (Or.inr ⟨str "admin", str "letmein", rfl, Or.inr (by decide)⟩)

/-! ## Cutting strings at a byte -/

theorem str_hash : str "#" = [35] := by decide
theorem str_question : str "?" = [63] := by decide
theorem str_slash : str "/" = [47] := by decide
theorem str_at : str "@" = [64] := by decide
theorem str_colon : str ":" = [58] := by decide
theorem str_two_slashes : str "//" = [47, 47] := by decide
theorem str_star : str "*" = [42] := by decide
theorem str_redis : str "redis://" = [114, 101, 100, 105, 115, 58, 47, 47] := by decide

theorem before_cons_self (c : Nat) (t : GoString) : before c (c :: t) = [] := by
  simp [before]

theorem before_cons_ne (c x : Nat) (t : GoString) (h : x ≠ c) :
    before c (x :: t) = x :: before c t := by
  simp [before, h]

theorem before_eq_self (c : Nat) (s : GoString) (h : c ∉ s) : before c s = s := by
  induction s with
  | nil => rfl
  | cons x t ih =>
    have hx : x ≠ c := fun hxc => h (hxc ▸ List.mem_cons_self _ _)
    rw [before_cons_ne c x t hx, ih (fun hc => h (List.mem_cons_of_mem _ hc))]

theorem before_append (c : Nat) (a b : GoString) (h : c ∉ a) :
    before c (a ++ b) = a ++ before c b := by
  induction a with
  | nil => rfl
  | cons x t ih =>
    have hx : x ≠ c := fun hxc => h (hxc ▸ List.mem_cons_self _ _)
    rw [List.cons_append, before_cons_ne c x _ hx, ih (fun hc => h (List.mem_cons_of_mem _ hc)),
      List.cons_append]

theorem before_initial (c : Nat) (s : GoString) : before c s <+: s := by
  induction s with
  | nil => exact List.prefix_refl _
  | cons x t ih =>
    by_cases hx : x = c
    · subst hx
      rw [before_cons_self]
      exact List.nil_prefix
    · rw [before_cons_ne c x t hx]
      exact (List.prefix_cons_inj x).2 ih

theorem strings.Index_singleton (s : GoString) (c : Nat) :
    strings.Index s [c] = if c ∈ s then some (before c s).length else none := by
  induction s with
  | nil => simp [strings.Index]
  | cons x t ih =>
    unfold strings.Index
    by_cases hx : x = c
    · subst hx
      simp [before_cons_self]
    · have hx2 : ¬ c = x := fun h => hx h.symm
      have hpre : List.isPrefixOf [c] (x :: t) = false := by
        simp [List.isPrefixOf, hx2]
      rw [hpre]
      simp only [Bool.false_eq_true, if_false]
      rw [ih, before_cons_ne c x t hx]
      by_cases hc : c ∈ t
      · simp [hc]
      · simp [hc, hx2]

theorem take_before_length (c : Nat) (s : GoString) :
    s.take (before c s).length = before c s := by
  have h := before_initial c s
  exact List.prefix_iff_eq_take.1 h ▸ rfl

theorem strings.Cut_fst (s : GoString) (c : Nat) : (strings.Cut s [c]).1 = before c s := by
  unfold strings.Cut
  rw [strings.Index_singleton]
  by_cases hc : c ∈ s
  · simp only [hc, if_true]
    exact take_before_length c s
  · simp only [hc, if_false]
    exact (before_eq_self c s hc).symm

/-! ## Schemes -/

theorem getSchemeFrom_scheme (mid pre rest : GoString) (hall : ∀ c ∈ pre ++ mid, schemeByte c)
    (hstart : ∃ c t, pre ++ mid = c :: t ∧ schemeStart c) :
    url.getSchemeFrom (pre ++ mid ++ 58 :: rest) pre.length (mid ++ 58 :: rest) =
      .ok (pre ++ mid, rest) := by
  induction mid generalizing pre with
  | nil =>
    obtain ⟨c, t, hct, -⟩ := hstart
    have hpre : pre.length ≠ 0 := by
      intro h0
      rw [List.length_eq_zero] at h0
      subst h0
      simp at hct
    rw [List.nil_append]
    unfold url.getSchemeFrom
    simp [hpre]
  | cons c mid ih =>
    have hc : schemeByte c := hall c (by simp)
    have hrec := ih (pre ++ [c]) (by simpa using hall)
      (by
        obtain ⟨d, t, hdt, hd⟩ := hstart
        cases pre with
        | nil =>
          simp only [List.nil_append, List.cons.injEq] at hdt
          exact ⟨c, mid, by simp, hdt.1 ▸ hd⟩
        | cons p ps =>
          simp only [List.cons_append, List.cons.injEq] at hdt
          exact ⟨p, ps ++ [c] ++ mid, by simp, hdt.1 ▸ hd⟩)
    have hlen : (pre ++ [c]).length = pre.length + 1 := by simp
    rw [hlen] at hrec
    have hraw : pre ++ c :: mid ++ 58 :: rest = pre ++ [c] ++ mid ++ 58 :: rest := by simp
    have hres : pre ++ c :: mid = pre ++ [c] ++ mid := by simp
    rw [List.cons_append]
    unfold url.getSchemeFrom
    rw [hraw, hres]
    by_cases hl : (97 ≤ c ∧ c ≤ 122) ∨ (65 ≤ c ∧ c ≤ 90)
    · rw [if_pos hl]
      exact hrec
    · rw [if_neg hl]
      have hd : (48 ≤ c ∧ c ≤ 57) ∨ c = 43 ∨ c = 45 ∨ c = 46 := by
        rcases hc with h | h
        · exact absurd h hl
        · exact h
      rw [if_pos hd]
      have hpre : pre.length ≠ 0 := by
        intro h0
        rw [List.length_eq_zero] at h0
        subst h0
        obtain ⟨d, t, hdt, hd2⟩ := hstart
        simp only [List.nil_append, List.cons.injEq] at hdt
        exact hl (hdt.1 ▸ hd2)
      rw [if_neg hpre]
      exact hrec

theorem getScheme_of_valid (scheme rest : GoString) (h : validScheme scheme) :
    url.getScheme (scheme ++ 58 :: rest) = .ok (scheme, rest) := by
  have := getSchemeFrom_scheme scheme [] rest (by simpa using h.2) (by simpa using h.1)
  simpa [url.getScheme] using this

theorem getSchemeFrom_ok (l pre scheme rest : GoString)
    (h : url.getSchemeFrom (pre ++ l) pre.length l = .ok (scheme, rest))
    (hall : ∀ c ∈ pre, schemeByte c) (hstart : pre ≠ [] → ∃ c t, pre = c :: t ∧ schemeStart c) :
    (scheme = [] ∧ rest = pre ++ l) ∨ (validScheme scheme ∧ pre ++ l = scheme ++ 58 :: rest) := by
  induction l generalizing pre with
  | nil =>
    unfold url.getSchemeFrom at h
    injection h with h
    injection h with h1 h2
    exact Or.inl ⟨h1.symm, h2.symm⟩
  | cons c l ih =>
    have hraw : pre ++ c :: l = pre ++ [c] ++ l := by simp
    have hlen : pre.length + 1 = (pre ++ [c]).length := by simp
    have hrec : schemeByte c → (pre = [] → schemeStart c) →
        url.getSchemeFrom (pre ++ c :: l) (pre.length + 1) l = .ok (scheme, rest) →
        (scheme = [] ∧ rest = pre ++ c :: l) ∨
          (validScheme scheme ∧ pre ++ c :: l = scheme ++ 58 :: rest) := by
      intro hc hs hr
      rw [hraw, hlen] at hr
      rw [hraw]
      refine ih (pre ++ [c]) hr ?_ ?_
      · intro d hd
        rcases List.mem_append.1 hd with hd | hd
        · exact hall d hd
        · rw [List.mem_singleton.1 hd]
          exact hc
      · intro _
        cases pre with
        | nil => exact ⟨c, [], rfl, hs rfl⟩
        | cons p ps =>
          obtain ⟨d, t, hdt, hd⟩ := hstart (by simp)
          injection hdt with h1 h2
          exact ⟨p, ps ++ [c], rfl, h1 ▸ hd⟩
    unfold url.getSchemeFrom at h
    by_cases hl : (97 ≤ c ∧ c ≤ 122) ∨ (65 ≤ c ∧ c ≤ 90)
    · rw [if_pos hl] at h
      exact hrec (Or.inl hl) (fun _ => hl) h
    · rw [if_neg hl] at h
      by_cases hd : (48 ≤ c ∧ c ≤ 57) ∨ c = 43 ∨ c = 45 ∨ c = 46
      · rw [if_pos hd] at h
        by_cases h0 : pre.length = 0
        · rw [if_pos h0] at h
          injection h with h
          injection h with h1 h2
          exact Or.inl ⟨h1.symm, h2.symm⟩
        · rw [if_neg h0] at h
          exact hrec (Or.inr hd) (fun hp => absurd (by rw [hp]; rfl) h0) h
      · rw [if_neg hd] at h
        by_cases h58 : c = 58
        · rw [if_pos h58] at h
          by_cases h0 : pre.length = 0
          · rw [if_pos h0] at h
            exact absurd h (by simp)
          · rw [if_neg h0] at h
            injection h with h
            injection h with h1 h2
            have hpre : pre ≠ [] := fun hp => h0 (by rw [hp]; rfl)
            have h1' : scheme = pre := by rw [← h1]; simp
            have h2' : rest = l := by rw [← h2]; simp
            subst h1' h2' h58
            exact Or.inr ⟨⟨hstart hpre, hall⟩, rfl⟩
        · rw [if_neg h58] at h
          injection h with h
          injection h with h1 h2
          exact Or.inl ⟨h1.symm, h2.symm⟩

theorem getScheme_ok (s scheme rest : GoString) (h : url.getScheme s = .ok (scheme, rest)) :
    (scheme = [] ∧ rest = s) ∨ (validScheme scheme ∧ s = scheme ++ 58 :: rest) := by
  have := getSchemeFrom_ok s [] scheme rest (by simpa [url.getScheme] using h) (by simp)
    (by simp)
  simpa using this

theorem validScheme_ToLower (scheme : GoString) (h : validScheme scheme) :
    validScheme (strings.ToLower scheme) := by
  obtain ⟨⟨c, t, hct, hc⟩, hall⟩ := h
  subst hct
  refine ⟨⟨if 65 ≤ c ∧ c ≤ 90 then c + 32 else c, strings.ToLower t, by simp [strings.ToLower],
    ?_⟩, ?_⟩
  · unfold schemeStart at hc ⊢
    split <;> omega
  · intro d hd
    simp only [strings.ToLower, List.mem_map] at hd
    obtain ⟨x, hx, rfl⟩ := hd
    have := hall x hx
    unfold schemeByte schemeStart at this ⊢
    split <;> omega

theorem validScheme_not_mem (scheme : GoString) (h : validScheme scheme) (c : Nat)
    (hc : ¬ schemeByte c) : c ∉ scheme :=
  fun hmem => hc (h.2 c hmem)

theorem validScheme_ne_nil (scheme : GoString) (h : validScheme scheme) : scheme ≠ [] := by
  obtain ⟨⟨c, t, hct, -⟩, -⟩ := h
  rw [hct]
  simp

/-! ## What a successful parse tells -/

theorem setPath_ok (v u : url.URL) (p : GoString) (h : url.setPath v p = .ok u) :
    ∃ path, url.unescape p .encodePath = .ok path ∧
      (u = { v with Path := path, RawPath := [] } ∨ u = { v with Path := path, RawPath := p }) := by
  unfold url.setPath at h
  cases hun : url.unescape p .encodePath with
  | error e =>
    rw [hun] at h
    exact absurd h (by simp)
  | ok path =>
    rw [hun] at h
    refine ⟨path, rfl, ?_⟩
    simp only at h
    split at h
    · injection h with h
      exact Or.inl h.symm
    · injection h with h
      exact Or.inr h.symm

theorem setFragment_ok (v u : url.URL) (f : GoString) (h : url.setFragment v f = .ok u) :
    ∃ frag, url.unescape f .encodeFragment = .ok frag ∧
      (u = { v with Fragment := frag, RawFragment := [] } ∨
        u = { v with Fragment := frag, RawFragment := f }) := by
  unfold url.setFragment at h
  cases hun : url.unescape f .encodeFragment with
  | error e =>
    rw [hun] at h
    exact absurd h (by simp)
  | ok frag =>
    rw [hun] at h
    refine ⟨frag, rfl, ?_⟩
    simp only at h
    split at h
    · injection h with h
      exact Or.inl h.symm
    · injection h with h
      exact Or.inr h.symm

theorem parseHierarchy_ok (v u : url.URL) (rest : GoString)
    (h : url.parseHierarchy v rest false = .ok u) :
    u = { v with Opaque := rest } ∨
    (strings.HasPrefix rest (str "//") = true ∧ ∃ user host,
      url.parseAuthority (url.splitAuthority rest).1 = .ok (user, host) ∧
      url.setPath { v with User := user, Host := host } (url.splitAuthority rest).2 = .ok u) ∨
    url.setPath { v with OmitHost := true } rest = .ok u ∨
    url.setPath v rest = .ok u := by
  unfold url.parseHierarchy at h
  split at h
  · injection h with h
    exact Or.inl h.symm
  · split at h
    · exact absurd h (by simp)
    · split at h
      · exact absurd h (by simp)
      · split at h
        · rename_i hauth
          cases hpa : url.parseAuthority (url.splitAuthority rest).1 with
          | error e =>
            rw [hpa] at h
            exact absurd h (by simp)
          | ok uh =>
            obtain ⟨user, host⟩ := uh
            rw [hpa] at h
            exact Or.inr (Or.inl ⟨hauth.2, user, host, rfl, h⟩)
        · split at h
          · exact Or.inr (Or.inr (Or.inl h))
          · exact Or.inr (Or.inr (Or.inr h))

theorem parse_ok (s : GoString) (u : url.URL) (h : url.parse s false = .ok u) :
    (s = str "*" ∧ u = { Path := str "*" }) ∨
    ∃ scheme rest, url.getScheme s = .ok (scheme, rest) ∧
      url.parseHierarchy
        { Scheme := strings.ToLower scheme, ForceQuery := (url.splitQuery rest).1,
          RawQuery := (url.splitQuery rest).2.1 }
        (url.splitQuery rest).2.2 false = .ok u := by
  unfold url.parse at h
  split at h
  · exact absurd h (by simp)
  · split at h
    · exact absurd h (by simp)
    · split at h
      · rename_i hstar
        injection h with h
        exact Or.inl ⟨hstar, h.symm⟩
      · cases hgs : url.getScheme s with
        | error e =>
          rw [hgs] at h
          exact absurd h (by simp)
        | ok sr =>
          obtain ⟨scheme, rest⟩ := sr
          rw [hgs] at h
          exact Or.inr ⟨scheme, rest, rfl, h⟩

theorem Parse_ok (s : GoString) (u : url.URL) (h : url.Parse s = .ok u) :
    ∃ u0, url.parse (before 35 s) false = .ok u0 ∧
      (u = u0 ∨ ∃ frag, (u = { u0 with Fragment := frag, RawFragment := [] } ∨
        u = { u0 with Fragment := frag, RawFragment := (strings.Cut s (str "#")).2.1 })) := by
  unfold url.Parse at h
  rw [str_hash, strings.Cut_fst] at h
  cases hp : url.parse (before 35 s) false with
  | error e =>
    rw [hp] at h
    exact absurd h (by simp)
  | ok u0 =>
    rw [hp] at h
    refine ⟨u0, rfl, ?_⟩
    simp only at h
    split at h
    · injection h with h
      exact Or.inl h.symm
    · obtain ⟨frag, -, hu⟩ := setFragment_ok _ _ _ h
      rw [str_hash]
      exact Or.inr ⟨frag, hu⟩

/-! ## The scheme of the reassembled URL -/

theorem writeAuthority_extends (u : url.URL) (buf : GoString) : buf <+: u.writeAuthority buf := by
  unfold url.URL.writeAuthority
  split_ifs <;> first
    | exact List.prefix_refl _
    | (cases u.User <;> simp [List.append_assoc])

theorem writePath_extends (u : url.URL) (buf : GoString) : buf <+: u.writePath buf := by
  unfold url.URL.writePath
  simp only []
  split_ifs <;> simp [List.append_assoc]

theorem writeQueryFragment_extends (u : url.URL) (buf : GoString) :
    buf <+: u.writeQueryFragment buf := by
  unfold url.URL.writeQueryFragment
  simp only []
  split_ifs <;> simp [List.append_assoc]

theorem String_scheme_first (u : url.URL) (hs : u.Scheme ≠ []) :
    ∃ rest, u.String = u.Scheme ++ 58 :: rest := by
  have h1 : u.writeScheme = u.Scheme ++ [58] := by
    simp [url.URL.writeScheme, hs, str_colon]
  have h2 : u.writeScheme <+: u.String := by
    unfold url.URL.String
    simp only []
    refine List.IsPrefix.trans ?_ (writeQueryFragment_extends u _)
    split_ifs
    · exact List.prefix_append _ _
    · exact (writeAuthority_extends u _).trans (writePath_extends u _)
  obtain ⟨t, ht⟩ := h2
  exact ⟨t, by rw [← ht, h1]; simp⟩

theorem Parse_scheme (s scheme rest : GoString) (u : url.URL) (h : url.Parse s = .ok u)
    (hgs : url.getScheme (before 35 s) = .ok (scheme, rest)) (hstar : before 35 s ≠ str "*") :
    u.Scheme = strings.ToLower scheme := by
  obtain ⟨u0, hp, hu⟩ := Parse_ok s u h
  have h0 : u0.Scheme = strings.ToLower scheme := by
    rcases parse_ok _ _ hp with ⟨hs, -⟩ | ⟨scheme2, rest2, hgs2, hh⟩
    · exact absurd hs hstar
    · rw [hgs] at hgs2
      injection hgs2 with hgs2
      injection hgs2 with h1 h2
      subst h1 h2
      rcases parseHierarchy_ok _ _ _ hh with hop | ⟨-, user, host, -, hsp⟩ | hsp | hsp
      · rw [hop]
      · obtain ⟨path, -, hu0 | hu0⟩ := setPath_ok _ _ _ hsp <;> rw [hu0]
      · obtain ⟨path, -, hu0 | hu0⟩ := setPath_ok _ _ _ hsp <;> rw [hu0]
      · obtain ⟨path, -, hu0 | hu0⟩ := setPath_ok _ _ _ hsp <;> rw [hu0]
  rcases hu with hu | ⟨frag, hu | hu⟩ <;> rw [hu] <;> exact h0

theorem validScheme_redis : validScheme [114, 101, 100, 105, 115] := by
  refine ⟨⟨114, _, rfl, ?_⟩, ?_⟩
  · unfold schemeStart
    omega
  · intro c hc
    simp only [List.mem_cons, List.mem_singleton, List.not_mem_nil, or_false] at hc
    unfold schemeByte schemeStart
    omega

theorem hasScheme_iff (s : GoString) :
    hasScheme s = true ↔ ∃ scheme rest, validScheme scheme ∧ s = scheme ++ 58 :: rest := by
  unfold hasScheme
  constructor
  · intro h
    cases hgs : url.getScheme s with
    | error e => simp [hgs] at h
    | ok sr =>
      obtain ⟨scheme, rest⟩ := sr
      simp only [hgs, ne_eq, decide_not, Bool.not_eq_true', decide_eq_false_iff_not] at h
      rcases getScheme_ok s scheme rest hgs with ⟨h0, -⟩ | ⟨hv, hs⟩
      · exact absurd h0 h
      · exact ⟨scheme, rest, hv, hs⟩
  · rintro ⟨scheme, rest, hv, rfl⟩
    rw [getScheme_of_valid scheme rest hv]
    simpa using validScheme_ne_nil scheme hv

theorem hasScheme_withDefaultScheme (target : GoString)
    (h : ¬ str "://" <:+: target ∨ hasScheme target = true) :
    hasScheme (withDefaultScheme target) = true := by
  unfold withDefaultScheme
  cases hc : strings.Contains target (str "://") with
  | true =>
    simp only [Bool.not_true, Bool.false_eq_true, if_false]
    rcases h with h | h
    · exact absurd ((strings.Contains_iff _ _).1 hc) h
    · exact h
  | false =>
    simp only [Bool.not_false, if_true]
    rw [hasScheme_iff]
    exact ⟨[114, 101, 100, 105, 115], 47 :: 47 :: target, validScheme_redis, by rw [str_redis]; rfl⟩

/-- What the resolved target of a parsed text with a scheme looks like: the scheme in lower
case, a colon, and the rest. -/
theorem resolvedTarget_scheme (s : GoString) (u : url.URL) (hp : url.Parse s = .ok u)
    (hs : hasScheme s = true) :
    ∃ scheme rest, validScheme scheme ∧ u.Scheme = scheme ∧
      resolvedTarget u = scheme ++ 58 :: rest := by
  obtain ⟨scheme, rest, hv, hs⟩ := (hasScheme_iff s).1 hs
  have h35 : 35 ∉ scheme ++ [58] := by
    intro hmem
    rcases List.mem_append.1 hmem with hm | hm
    · exact validScheme_not_mem scheme hv 35 (by unfold schemeByte schemeStart; omega) hm
    · simp at hm
  have hb : before 35 s = scheme ++ 58 :: before 35 rest := by
    have : s = (scheme ++ [58]) ++ rest := by rw [hs]; simp
    rw [this, before_append 35 _ _ h35]
    simp
  have hstar : before 35 s ≠ str "*" := by
    rw [hb, str_star]
    obtain ⟨⟨c, t, hct, -⟩, -⟩ := hv
    rw [hct]
    simp
  have hsch := Parse_scheme s scheme (before 35 rest) u hp
    (by rw [hb]; exact getScheme_of_valid _ _ hv) hstar
  have hvl := validScheme_ToLower scheme hv
  obtain ⟨t, ht⟩ := String_scheme_first { u with User := none }
    (by rw [hsch]; exact validScheme_ne_nil _ hvl)
  exact ⟨strings.ToLower scheme, t, hvl, hsch, by rw [resolvedTarget, ht, hsch]⟩

/-- Counterexample to C6 as stated: the non-empty target /a://b resolves without error, and the
resolved target handed to NewRedisExporter is /a://b, which carries no scheme. -/
theorem scrapeHandler_resolves_without_scheme :
    requestSchemeless.Query.Get (str "target") ≠ [] ∧
    (∃ u, url.Parse (withDefaultScheme (requestSchemeless.Query.Get (str "target"))) = .ok u) ∧
    (scrapeHandler exampleEnv {} requestSchemeless exampleExporter).2.calls =
      [.urlParse (str "/a://b"), .NewRegistry 1,
        .NewRedisExporter (str "/a://b") { exampleExporter.options with Registry := 1 },
        .HandlerFor 1] ∧
    hasScheme (str "/a://b") = false := by
  refine ⟨by decide, ⟨_, rfl⟩, by decide, by decide⟩

/-- C6, amended: for a non-empty target that resolves without error, the resolved target handed
to NewRedisExporter carries an explicit non-empty scheme whenever the target does not contain
:// (the default scheme is then put in front) or itself starts with a scheme and a colon. -/
theorem scrapeHandler_resolved_scheme (env : Env α) (w : ResponseWriter) (r : Request)
    (e : Exporter α) (u : url.URL) (hne : r.Query.Get (str "target") ≠ [])
    (hp : url.Parse (withDefaultScheme (r.Query.Get (str "target"))) = .ok u)
    (h : ¬ str "://" <:+: r.Query.Get (str "target") ∨
      hasScheme (r.Query.Get (str "target")) = true) :
    hasScheme (resolvedTarget u) = true ∧
    ∃ opts rest, (scrapeHandler env w r e).2.calls =
      e.calls ++ [.urlParse (withDefaultScheme (r.Query.Get (str "target"))),
        .NewRegistry e.registries, .NewRedisExporter (resolvedTarget u) opts] ++ rest := by
  constructor
  · obtain ⟨scheme, rest, hv, -, hres⟩ :=
      resolvedTarget_scheme _ u hp (hasScheme_withDefaultScheme _ h)
    exact (hasScheme_iff _).2 ⟨scheme, rest, hv, hres⟩
  · rw [scrapeHandler_of_parse_ok env w r e u hne hp]
    cases env.NewRedisExporter (resolvedTarget u)
        { requestOptions e.options r.Query with Registry := e.registries }
    · exact ⟨{ requestOptions e.options r.Query with Registry := e.registries },
        [.HandlerFor e.registries], by simp⟩
    · exact ⟨{ requestOptions e.options r.Query with Registry := e.registries }, [], by simp⟩

/-- Witness of C6: the target localhost:6379 is resolved to redis://localhost:6379, which
carries the scheme redis. -/
theorem scrapeHandler_resolved_scheme_witness :
    hasScheme (str "redis://localhost:6379") = true ∧
    ∃ opts rest, (scrapeHandler exampleEnv {} requestCheckKeys exampleExporter).2.calls =
      [] ++ [.urlParse (str "redis://localhost:6379"), .NewRegistry 1,
        .NewRedisExporter (str "redis://localhost:6379") opts] ++ rest :=
  scrapeHandler_resolved_scheme exampleEnv {} requestCheckKeys exampleExporter _ (by decide)
    parse_localhost (Or.inl (by decide))

/-! ## The splits of parse -/

theorem before_split (c : Nat) (s : GoString) :
    s = before c s ∨ ∃ t, s = before c s ++ c :: t := by
  induction s with
  | nil => exact Or.inl rfl
  | cons x t ih =>
    by_cases hx : x = c
    · subst hx
      exact Or.inr ⟨t, by rw [before_cons_self]; rfl⟩
    · rw [before_cons_ne c x t hx]
      rcases ih with h | ⟨t2, h⟩
      · exact Or.inl (by rw [← h])
      · exact Or.inr ⟨t2, by rw [List.cons_append, ← h]⟩

theorem drop_before_length (c : Nat) (s : GoString) :
    s.drop (before c s).length = [] ∨ ∃ t, s.drop (before c s).length = c :: t := by
  rcases before_split c s with h | ⟨t, h⟩
  · left
    rw [List.drop_eq_nil_iff, ← h]
  · right
    refine ⟨t, ?_⟩
    have : s.drop (before c s).length = (before c s ++ c :: t).drop (before c s).length := by
      rw [← h]
    rw [this, List.drop_left]

theorem splitQuery_rest (rest : GoString) : (url.splitQuery rest).2.2 = before 63 rest := by
  unfold url.splitQuery
  split
  · rename_i h
    rw [Bool.and_eq_true, str_question] at h
    obtain ⟨hsuf, hcount⟩ := h
    obtain ⟨a, ha⟩ := List.isSuffixOf_iff_suffix.1 hsuf
    subst ha
    have hc : List.count 63 a = 0 := by
      simp only [strings.CountByte, List.count_append, beq_iff_eq] at hcount
      simpa using hcount
    have hmem : 63 ∉ a := List.count_eq_zero.1 hc
    rw [before_append 63 a [63] hmem, before_cons_self]
    simp
  · rw [str_question, strings.Cut_fst]

theorem splitAuthority_fst (rest : GoString) :
    (url.splitAuthority rest).1 = before 47 (rest.drop 2) := by
  unfold url.splitAuthority
  simp only [str_slash, strings.Index_singleton]
  by_cases hc : 47 ∈ rest.drop 2
  · simp only [hc, if_true]
    exact take_before_length 47 _
  · simp only [hc, if_false]
    exact (before_eq_self 47 _ hc).symm

theorem splitAuthority_snd (rest : GoString) :
    (url.splitAuthority rest).2 = [] ∨ ∃ t, (url.splitAuthority rest).2 = 47 :: t := by
  unfold url.splitAuthority
  simp only [str_slash, strings.Index_singleton]
  by_cases hc : 47 ∈ rest.drop 2
  · simp only [hc, if_true]
    exact drop_before_length 47 _
  · simp [hc]

theorem strings.LastIndex_singleton_none (s : GoString) (c : Nat) (h : c ∉ s) :
    strings.LastIndex s [c] = none := by
  induction s with
  | nil => simp [strings.LastIndex, List.isPrefixOf]
  | cons x t ih =>
    have hx : ¬ c = x := fun hxc => h (hxc ▸ List.mem_cons_self _ _)
    unfold strings.LastIndex
    rw [ih (fun hc => h (List.mem_cons_of_mem _ hc))]
    simp [List.isPrefixOf, hx]

theorem parseAuthority_user (authority host : GoString) (user : Option url.Userinfo)
    (h : url.parseAuthority authority = .ok (user, host)) (hu : user ≠ none) :
    64 ∈ authority := by
  by_contra hmem
  have hl : strings.LastIndex authority (str "@") = none := by
    rw [str_at]
    exact strings.LastIndex_singleton_none authority 64 hmem
  unfold url.parseAuthority at h
  simp only [hl] at h
  cases hph : url.parseHost authority with
  | error e =>
    rw [hph] at h
    exact absurd h (by simp)
  | ok host2 =>
    rw [hph] at h
    injection h with h
    injection h with h1 h2
    exact hu h1.symm

/-! ## Escaping -/

theorem escapeCount_zero (mode : url.encoding) (s : GoString)
    (h : url.escapeCount mode s = (0, 0)) : ∀ x ∈ s, url.shouldEscape x mode = false := by
  induction s with
  | nil => simp
  | cons c t ih =>
    unfold url.escapeCount at h
    cases hrec : url.escapeCount mode t with
    | mk spaceCount hexCount =>
      rw [hrec] at h
      simp only at h
      cases hc : url.shouldEscape c mode with
      | true =>
        rw [hc] at h
        simp only [if_true] at h
        split at h <;> simp at h
      | false =>
        rw [hc] at h
        simp only [Bool.false_eq_true, if_false] at h
        intro x hx
        rcases List.mem_cons.1 hx with hx | hx
        · rw [hx]
          exact hc
        · exact ih (by rw [hrec, h]) x hx

theorem upperhex_getD (n : Nat) : url.upperhex.getD n 0 = 0 ∨ url.upperhex.getD n 0 ∈ url.upperhex := by
  by_cases h : n < url.upperhex.length
  · right
    rw [List.getD_eq_getElem _ _ h]
    exact List.getElem_mem _
  · left
    exact List.getD_eq_default _ _ (Nat.le_of_not_lt h)

/-- The bytes of an escaped text: a percent sign, a hexadecimal digit, a plus sign for a space
in a query, or a byte of the text that needs no escaping. -/
theorem escape_mem (mode : url.encoding) (s : GoString) (c : Nat) (h : c ∈ url.escape s mode) :
    c = 37 ∨ c = 43 ∨ c = 0 ∨ c ∈ url.upperhex ∨ (c ∈ s ∧ url.shouldEscape c mode = false) := by
  unfold url.escape at h
  split at h
  · rename_i h0
    exact Or.inr (Or.inr (Or.inr (Or.inr ⟨h, escapeCount_zero mode s h0 c h⟩)))
  · clear * - h
    induction s with
    | nil => simp [url.escapeBuild] at h
    | cons x t ih =>
      have hrec : c ∈ url.escapeBuild mode t →
          c = 37 ∨ c = 43 ∨ c = 0 ∨ c ∈ url.upperhex ∨
            (c ∈ x :: t ∧ url.shouldEscape c mode = false) := by
        intro hc
        rcases ih hc with h1 | h1 | h1 | h1 | ⟨h1, h2⟩
        · exact Or.inl h1
        · exact Or.inr (Or.inl h1)
        · exact Or.inr (Or.inr (Or.inl h1))
        · exact Or.inr (Or.inr (Or.inr (Or.inl h1)))
        · exact Or.inr (Or.inr (Or.inr (Or.inr ⟨List.mem_cons_of_mem _ h1, h2⟩)))
      unfold url.escapeBuild at h
      split at h
      · rcases List.mem_cons.1 h with h | h
        · exact Or.inr (Or.inl h)
        · exact hrec h
      · split at h
        · rcases List.mem_cons.1 h with h | h
          · exact Or.inl h
          · rcases List.mem_cons.1 h with h | h
            · rcases upperhex_getD (x >>> 4) with h0 | h0
              · exact Or.inr (Or.inr (Or.inl (by rw [h, h0])))
              · exact Or.inr (Or.inr (Or.inr (Or.inl (by rw [h]; exact h0))))
            · rcases List.mem_cons.1 h with h | h
              · rcases upperhex_getD (x &&& 15) with h0 | h0
                · exact Or.inr (Or.inr (Or.inl (by rw [h, h0])))
                · exact Or.inr (Or.inr (Or.inr (Or.inl (by rw [h]; exact h0))))
              · exact hrec h
        · rename_i hse
          rcases List.mem_cons.1 h with h | h
          · refine Or.inr (Or.inr (Or.inr (Or.inr ⟨by rw [h]; exact List.mem_cons_self _ _, ?_⟩)))
            rw [h]
            simpa using hse
          · exact hrec h

/-- An escaped host contains no slash, question mark, number sign or at sign. -/
theorem escape_host_not_mem (s : GoString) (c : Nat) (hc : c = 47 ∨ c = 63 ∨ c = 35 ∨ c = 64) :
    c ∉ url.escape s .encodeHost := by
  intro h
  rcases escape_mem _ s c h with h1 | h1 | h1 | h1 | ⟨-, h1⟩
  · omega
  · omega
  · omega
  · rcases hc with rfl | rfl | rfl | rfl <;> revert h1 <;> decide
  · rcases hc with rfl | rfl | rfl | rfl <;> revert h1 <;> decide

theorem escape_nil (mode : url.encoding) : url.escape [] mode = [] := by
  simp [url.escape, url.escapeCount]

theorem escape_path_cons_slash (t : GoString) :
    ∃ t2, url.escape (47 :: t) .encodePath = 47 :: t2 := by
  unfold url.escape
  split
  · exact ⟨t, rfl⟩
  · unfold url.escapeBuild
    have h1 : ¬ ((47 : Nat) = 32 ∧ url.encoding.encodePath = url.encoding.encodeQueryComponent) := by
      simp
    have h2 : url.shouldEscape 47 .encodePath = false := by decide
    rw [if_neg h1, h2]
    exact ⟨_, rfl⟩

theorem unescape_nil (mode : url.encoding) : url.unescape [] mode = .ok [] := by
  simp [url.unescape, url.unescapeScan]

theorem unescapeBuild_cons_slash (mode : url.encoding) (t : GoString) :
    url.unescapeBuild mode (47 :: t) = 47 :: url.unescapeBuild mode t := by
  conv_lhs => unfold url.unescapeBuild
  simp

theorem unescape_cons_slash (mode : url.encoding) (t p : GoString)
    (h : url.unescape (47 :: t) mode = .ok p) : ∃ t2, p = 47 :: t2 := by
  unfold url.unescape at h
  cases hs : url.unescapeScan mode (47 :: t) 0 false with
  | error e =>
    rw [hs] at h
    exact absurd h (by simp)
  | ok nb =>
    obtain ⟨n, hasPlus⟩ := nb
    rw [hs] at h
    simp only at h
    split at h
    · injection h with h
      exact ⟨t, h.symm⟩
    · injection h with h
      refine ⟨url.unescapeBuild mode t, ?_⟩
      rw [← h]
      exact unescapeBuild_cons_slash mode t

/-- The escaped path of a URL whose path was set from a text that is empty or starts with a
slash: it is empty when the path is, and starts with a slash otherwise. -/
theorem EscapedPath_rooted (u : url.URL) (p : GoString)
    (hp : p = [] ∨ ∃ t, p = 47 :: t) (hun : url.unescape p .encodePath = .ok u.Path)
    (hraw : u.RawPath = [] ∨ u.RawPath = p) :
    (u.Path = [] → u.EscapedPath = []) ∧ (u.Path ≠ [] → ∃ t, u.EscapedPath = 47 :: t) := by
  rcases hp with hp | ⟨t, hp⟩
  · subst hp
    rw [unescape_nil] at hun
    injection hun with hun
    have hr : u.RawPath = [] := by
      rcases hraw with h | h <;> exact h
    have hep : u.EscapedPath = [] := by
      unfold url.URL.EscapedPath
      simp [hr, ← hun, str_star, escape_nil]
    exact ⟨fun _ => hep, fun h => absurd hun.symm h⟩
  · subst hp
    obtain ⟨t2, ht2⟩ := unescape_cons_slash _ _ _ hun
    have hep : ∃ t3, u.EscapedPath = 47 :: t3 := by
      unfold url.URL.EscapedPath
      simp only []
      split
      · rename_i hcond
        rcases hraw with h | h
        · exact absurd h hcond.1
        · exact ⟨t, h⟩
      · have hstar : u.Path ≠ str "*" := by
          rw [ht2, str_star]
          simp
        rw [if_neg hstar, ht2]
        exact escape_path_cons_slash t2
    exact ⟨fun h => by rw [ht2] at h; simp at h, fun _ => hep⟩

/-! ## The shape of the reassembled URL -/

theorem writeQueryFragment_form (u : url.URL) (buf : GoString) :
    ∃ q, u.writeQueryFragment buf = buf ++ q ∧
      (q = [] ∨ ∃ c t, q = c :: t ∧ (c = 63 ∨ c = 35)) := by
  unfold url.URL.writeQueryFragment
  simp only [str_question, str_hash]
  split_ifs
  · exact ⟨63 :: (u.RawQuery ++ 35 :: u.EscapedFragment), by simp,
      Or.inr ⟨63, _, rfl, Or.inl rfl⟩⟩
  · exact ⟨35 :: u.EscapedFragment, by simp, Or.inr ⟨35, _, rfl, Or.inr rfl⟩⟩
  · exact ⟨63 :: u.RawQuery, by simp, Or.inr ⟨63, _, rfl, Or.inl rfl⟩⟩
  · exact ⟨[], by simp, Or.inl rfl⟩

theorem writePath_rooted (u : url.URL) (buf : GoString) (hbuf : buf ≠ [])
    (hEP0 : u.Path = [] → u.EscapedPath = [])
    (hEP1 : u.Path ≠ [] → ∃ t, u.EscapedPath = 47 :: t) :
    u.writePath buf = buf ++ u.EscapedPath := by
  have hlen : buf.length ≠ 0 := by
    intro h
    exact hbuf (List.length_eq_zero.1 h)
  unfold url.URL.writePath
  by_cases hP : u.Path = []
  · simp [hEP0 hP, hlen]
  · obtain ⟨t, ht⟩ := hEP1 hP
    simp [ht, hlen]

theorem writeAuthority_noUser (u : url.URL) (buf : GoString) (hUser : u.User = none)
    (hOm : u.OmitHost = false) (hsh : u.Scheme ≠ [] ∨ u.Host ≠ []) :
    u.writeAuthority buf =
      if u.Host = [] ∧ u.Path = [] then buf
      else buf ++ 47 :: 47 :: url.escape u.Host .encodeHost := by
  have hout : u.Scheme ≠ [] ∨ u.Host ≠ [] ∨ u.User ≠ none := by
    rcases hsh with h | h
    · exact Or.inl h
    · exact Or.inr (Or.inl h)
  unfold url.URL.writeAuthority
  rw [if_pos hout]
  simp only [hUser, hOm, ne_eq, not_true_eq_false, or_false, Bool.false_eq_true, false_and,
    if_false, str_two_slashes]
  by_cases hH : u.Host = []
  · by_cases hP : u.Path = []
    · simp [hH, hP]
    · simp [hH, hP, escape_nil]
  · simp [hH]

/-- The text URL.String produces for a URL without user information, opaque part and OmitHost
flag that has a scheme or a host, when its escaped path is empty or starts with a slash: either
the scheme, two slashes, the escaped host and a rest that is empty or starts with a slash, a
question mark or a number sign; or the scheme alone and a rest that is empty or starts with a
question mark or a number sign. -/
theorem String_form (u : url.URL) (hUser : u.User = none) (hOp : u.Opaque = [])
    (hOm : u.OmitHost = false) (hEP0 : u.Path = [] → u.EscapedPath = [])
    (hEP1 : u.Path ≠ [] → ∃ t, u.EscapedPath = 47 :: t) (hsh : u.Scheme ≠ [] ∨ u.Host ≠ []) :
    (∃ T, u.String = u.writeScheme ++ 47 :: 47 :: (url.escape u.Host .encodeHost ++ T) ∧
      (T = [] ∨ ∃ c t, T = c :: t ∧ (c = 47 ∨ c = 63 ∨ c = 35))) ∨
    (u.Scheme ≠ [] ∧ ∃ T, u.String = u.writeScheme ++ T ∧
      (T = [] ∨ ∃ c t, T = c :: t ∧ (c = 63 ∨ c = 35))) := by
  obtain ⟨q, hq, hqs⟩ := writeQueryFragment_form u (u.writePath (u.writeAuthority u.writeScheme))
  have hS : u.String = u.writePath (u.writeAuthority u.writeScheme) ++ q := by
    unfold url.URL.String
    simp only [hOp, ne_eq, not_true_eq_false, if_false]
    exact hq
  rw [hS, writeAuthority_noUser u _ hUser hOm hsh]
  by_cases hHP : u.Host = [] ∧ u.Path = []
  · have hsch : u.Scheme ≠ [] := by
      rcases hsh with h | h
      · exact h
      · exact absurd hHP.1 h
    have hne : u.writeScheme ≠ [] := by
      simp [url.URL.writeScheme, hsch]
    rw [if_pos hHP, writePath_rooted u _ hne hEP0 hEP1, hEP0 hHP.2, List.append_nil]
    exact Or.inr ⟨hsch, q, rfl, hqs⟩
  · rw [if_neg hHP, writePath_rooted u _ (by simp) hEP0 hEP1]
    left
    refine ⟨u.EscapedPath ++ q, by simp, ?_⟩
    by_cases hP : u.Path = []
    · rw [hEP0 hP, List.nil_append]
      rcases hqs with h | ⟨c, t, h, hc⟩
      · exact Or.inl h
      · exact Or.inr ⟨c, t, h, Or.inr hc⟩
    · obtain ⟨t, ht⟩ := hEP1 hP
      rw [ht]
      exact Or.inr ⟨47, t ++ q, rfl, Or.inl rfl⟩

theorem before_query_fragment (T : GoString)
    (hT : T = [] ∨ ∃ c t, T = c :: t ∧ (c = 63 ∨ c = 35)) : before 63 (before 35 T) = [] := by
  rcases hT with rfl | ⟨c, t, rfl, rfl | rfl⟩
  · rfl
  · rw [before_cons_ne 35 63 t (by decide), before_cons_self]
  · rw [before_cons_self]
    rfl

theorem before_path_query_fragment (T : GoString)
    (hT : T = [] ∨ ∃ c t, T = c :: t ∧ (c = 47 ∨ c = 63 ∨ c = 35)) :
    before 47 (before 63 (before 35 T)) = [] := by
  rcases hT with rfl | ⟨c, t, rfl, rfl | hc⟩
  · rfl
  · rw [before_cons_ne 35 47 t (by decide), before_cons_ne 63 47 _ (by decide), before_cons_self]
  · rw [before_query_fragment _ (Or.inr ⟨c, t, rfl, hc⟩)]
    rfl

/-! ## User information -/

/-- A successful parse with user information went through the authority branch. -/
theorem Parse_user (r : GoString) (u : url.URL) (h : url.Parse r = .ok u) (hu : u.User ≠ none) :
    ∃ scheme rest, url.getScheme (before 35 r) = .ok (scheme, rest) ∧
      u.Scheme = strings.ToLower scheme ∧ u.Opaque = [] ∧ u.OmitHost = false ∧
      strings.HasPrefix (before 63 rest) (str "//") = true ∧
      64 ∈ before 47 ((before 63 rest).drop 2) ∧
      ∃ p, (p = [] ∨ ∃ t, p = 47 :: t) ∧ url.unescape p .encodePath = .ok u.Path ∧
        (u.RawPath = [] ∨ u.RawPath = p) := by
  obtain ⟨u0, hp, hu0⟩ := Parse_ok r u h
  have key : u0.User ≠ none →
      ∃ scheme rest, url.getScheme (before 35 r) = .ok (scheme, rest) ∧
      u0.Scheme = strings.ToLower scheme ∧ u0.Opaque = [] ∧ u0.OmitHost = false ∧
      strings.HasPrefix (before 63 rest) (str "//") = true ∧
      64 ∈ before 47 ((before 63 rest).drop 2) ∧
      ∃ p, (p = [] ∨ ∃ t, p = 47 :: t) ∧ url.unescape p .encodePath = .ok u0.Path ∧
        (u0.RawPath = [] ∨ u0.RawPath = p) := by
    intro hu0n
    rcases parse_ok _ _ hp with ⟨-, hstar⟩ | ⟨scheme, rest, hgs, hh⟩
    · rw [hstar] at hu0n
      exact absurd rfl hu0n
    · refine ⟨scheme, rest, hgs, ?_⟩
      rw [splitQuery_rest] at hh
      rcases parseHierarchy_ok _ _ _ hh with hop | ⟨hpre, user, host, hpa, hsp⟩ | hsp | hsp
      · rw [hop] at hu0n
        exact absurd rfl hu0n
      · obtain ⟨path, hun, hcase⟩ := setPath_ok _ _ _ hsp
        have huser : u0.User = user := by
          rcases hcase with hc | hc <;> rw [hc]
        have h64 : 64 ∈ before 47 ((before 63 rest).drop 2) := by
          rw [← splitAuthority_fst]
          exact parseAuthority_user _ host user hpa (huser ▸ hu0n)
        refine ⟨?_, ?_, ?_, hpre, h64, (url.splitAuthority (before 63 rest)).2,
          splitAuthority_snd _, ?_, ?_⟩
        · rcases hcase with hc | hc <;> rw [hc]
        · rcases hcase with hc | hc <;> rw [hc]
        · rcases hcase with hc | hc <;> rw [hc]
        · rcases hcase with hc | hc <;> rw [hc] <;> exact hun
        · rcases hcase with hc | hc <;> rw [hc]
          · exact Or.inl rfl
          · exact Or.inr rfl
      · obtain ⟨path, -, hc | hc⟩ := setPath_ok _ _ _ hsp <;>
        · rw [hc] at hu0n
          exact absurd rfl hu0n
      · obtain ⟨path, -, hc | hc⟩ := setPath_ok _ _ _ hsp <;>
        · rw [hc] at hu0n
          exact absurd rfl hu0n
  rcases hu0 with hc | ⟨frag, hc | hc⟩
  · rw [hc] at hu ⊢
    exact key hu
  · rw [hc] at hu ⊢
    exact key hu
  · rw [hc] at hu ⊢
    exact key hu

theorem writeScheme_eq (u : url.URL) :
    u.writeScheme = if u.Scheme ≠ [] then u.Scheme ++ [58] else [] := by
  unfold url.URL.writeScheme
  rw [str_colon]

theorem getScheme_slash (t : GoString) : url.getScheme (47 :: t) = .ok ([], 47 :: t) := by
  simp [url.getScheme, url.getSchemeFrom]

theorem getScheme_writeScheme (u : url.URL) (X : GoString)
    (h : (u.Scheme = [] ∧ ∃ t, X = 47 :: t) ∨ validScheme u.Scheme) :
    url.getScheme (u.writeScheme ++ X) = .ok (u.Scheme, X) := by
  rw [writeScheme_eq]
  rcases h with ⟨h0, t, rfl⟩ | hv
  · simp only [h0, ne_eq, not_true_eq_false, if_false, List.nil_append]
    exact getScheme_slash t
  · rw [if_pos (validScheme_ne_nil _ hv), List.append_assoc]
    exact getScheme_of_valid _ _ hv

theorem before_writeScheme (u : url.URL) (X : GoString)
    (h : u.Scheme = [] ∨ validScheme u.Scheme) :
    before 35 (u.writeScheme ++ X) = u.writeScheme ++ before 35 X := by
  apply before_append
  rw [writeScheme_eq]
  rcases h with h0 | hv
  · simp [h0]
  · rw [if_pos (validScheme_ne_nil _ hv)]
    intro hmem
    rcases List.mem_append.1 hmem with hm | hm
    · exact validScheme_not_mem _ hv 35 (by unfold schemeByte schemeStart; omega) hm
    · simp at hm

/-- Where the code does strip the user information: a URL parsed with user information that has
a scheme or a host is reassembled, once the user information is dropped, into a text whose
re-parse carries no user information. -/
theorem resolvedTarget_no_userinfo (s : GoString) (u u2 : url.URL) (hp : url.Parse s = .ok u)
    (hu : u.User ≠ none) (hsh : u.Scheme ≠ [] ∨ u.Host ≠ [])
    (h2 : url.Parse (resolvedTarget u) = .ok u2) : u2.User = none := by
  obtain ⟨scheme, rest, hgs, hsch, hOp, hOm, -, -, p, hp0, hun, hraw⟩ := Parse_user s u hp hu
  have hvalid : u.Scheme = [] ∨ validScheme u.Scheme := by
    rcases getScheme_ok _ _ _ hgs with ⟨h0, -⟩ | ⟨hv, -⟩
    · left
      rw [hsch, h0]
      rfl
    · right
      rw [hsch]
      exact validScheme_ToLower _ hv
  have hEP := EscapedPath_rooted { u with User := none } p hp0 hun hraw
  have hform := String_form { u with User := none } rfl hOp hOm hEP.1 hEP.2 hsh
  by_contra hne
  obtain ⟨scheme2, rest2, hgs2, -, -, -, hpre, h64, -⟩ := Parse_user _ u2 h2 hne
  have hres : resolvedTarget u = url.URL.String { u with User := none } := rfl
  have hws : url.URL.writeScheme { u with User := none } = u.writeScheme := rfl
  rw [hres] at hgs2
  rcases hform with ⟨T, hT, hTs⟩ | ⟨hs, T, hT, hTs⟩
  · rw [hT, hws, before_writeScheme u _ hvalid, before_cons_ne 35 47 _ (by decide),
      before_cons_ne 35 47 _ (by decide),
      before_append 35 _ _ (escape_host_not_mem _ 35 (by omega))] at hgs2
    rw [getScheme_writeScheme u _ (by
      rcases hvalid with h0 | hv
      · exact Or.inl ⟨h0, _, rfl⟩
      · exact Or.inr hv)] at hgs2
    injection hgs2 with hgs2
    injection hgs2 with hsch2 hrest
    rw [← hrest, before_cons_ne 63 47 _ (by decide), before_cons_ne 63 47 _ (by decide),
      before_append 63 _ _ (escape_host_not_mem _ 63 (by omega))] at h64
    simp only [List.drop_succ_cons, List.drop_zero] at h64
    rw [before_append 47 _ _ (escape_host_not_mem _ 47 (by omega)),
      before_path_query_fragment T hTs, List.append_nil] at h64
    exact escape_host_not_mem _ 64 (by omega) h64
  · have hv : validScheme u.Scheme := by
      rcases hvalid with h0 | hv
      · exact absurd h0 hs
      · exact hv
    rw [hT, hws, before_writeScheme u _ hvalid, getScheme_writeScheme u _ (Or.inr hv)] at hgs2
    injection hgs2 with hgs2
    injection hgs2 with hsch2 hrest
    rw [← hrest, before_query_fragment T hTs] at hpre
    exact absurd hpre (by decide)

/-- C4 fails on the request GET /scrape?target=//u@//v@w/://: the target parses with the user
information u; the resolved target handed to NewRedisExporter is //v@w/://, and re-parsing it
yields a URL with the user information v and the host w. -/
theorem scrapeHandler_reparse_userinfo :
    (∃ u, url.Parse (withDefaultScheme (requestPathAuthority.Query.Get (str "target"))) = .ok u ∧
      u.User = some ⟨str "u", [], false⟩ ∧ resolvedTarget u = str "//v@w/://") ∧
    (scrapeHandler exampleEnv {} requestPathAuthority exampleExporter).2.calls =
      [.urlParse (str "//u@//v@w/://"), .NewRegistry 1,
        .NewRedisExporter (str "//v@w/://") { exampleExporter.options with Registry := 1 },
        .HandlerFor 1] ∧
    ∃ u2, url.Parse (str "//v@w/://") = .ok u2 ∧ u2.User = some ⟨str "v", [], false⟩ ∧
      u2.Host = str "w" := by
  refine ⟨⟨_, rfl, rfl, by decide⟩, by decide, ⟨_, rfl, rfl, rfl⟩⟩

end RedisExporter
